import Mathlib

/-!
Shallow embedding of the lightcut-tree core of the repository
(src/src/lightcutViz.ts and its JavaScript twin src/js/lightcutTree.js, plus the
cut-refinement traversal of src/shaders.wgsl).

Conventions of the embedding:
* JavaScript numbers are modelled as exact rationals; the host-side tree code
  performs only field arithmetic on finite values, so the idealisation is the
  usual one.  The device-side (WGSL) code also calls sqrt, so that part is
  modelled over the reals.
* Mutation is modelled by rebuilding values (assignDepths returns the tree it
  would mutate in place).
* The unbounded JS while loop of the brute-force builder is modelled with a
  fuel argument; the builder passes fuel equal to the number of nodes, which
  is provably enough because each iteration removes exactly one node.
* The recursive KD build with the spatial strategy is NOT total (it recurses
  on an identical subset when all positions of a bucket coincide), so it is
  modelled with an explicit fuel; a result of none means the fuel ran out.
-/

-- ─── Vec3 / AABB / data model (src/src/types.ts) ─────────────────────────────

abbrev Vec3 := ℚ × ℚ × ℚ

/-- Component access p[axis] for axis in 0,1,2 (JS array indexing). -/
def vget (v : Vec3) : ℕ → ℚ
  | 0 => v.1
  | 1 => v.2.1
  | _ => v.2.2

structure AABB where
  min : Vec3
  max : Vec3
deriving DecidableEq

/-- Fields of LightSource that the tree builder reads (position, intensity,
color); spot, angle and the shadow flag are ignored by the core. -/
structure LightSource where
  position : Vec3
  intensity : ℚ
  color : Vec3
deriving DecidableEq

structure LightcutRepresentative where
  position : Vec3
  intensity : ℚ
  color : Vec3
deriving DecidableEq

/-- LightcutNode of lightcutViz.ts: left and right are independent nullable
child pointers, depth is assigned after construction, lightIndex is the
original light array index for leaves and -1 for internal nodes. -/
inductive LightcutNode : Type where
  | mk : (aabb : AABB) → (representative : LightcutRepresentative) →
      (totalIntensity : ℚ) →
      (left : Option LightcutNode) → (right : Option LightcutNode) →
      (depth : ℕ) → (lightCount : ℕ) → (lightIndex : ℤ) → LightcutNode

def LightcutNode.aabb : LightcutNode → AABB
  | .mk a _ _ _ _ _ _ _ => a

def LightcutNode.representative : LightcutNode → LightcutRepresentative
  | .mk _ rep _ _ _ _ _ _ => rep

def LightcutNode.totalIntensity : LightcutNode → ℚ
  | .mk _ _ tI _ _ _ _ _ => tI

def LightcutNode.left : LightcutNode → Option LightcutNode
  | .mk _ _ _ l _ _ _ _ => l

def LightcutNode.right : LightcutNode → Option LightcutNode
  | .mk _ _ _ _ r _ _ _ => r

def LightcutNode.depth : LightcutNode → ℕ
  | .mk _ _ _ _ _ d _ _ => d

def LightcutNode.lightCount : LightcutNode → ℕ
  | .mk _ _ _ _ _ _ lc _ => lc

def LightcutNode.lightIndex : LightcutNode → ℤ
  | .mk _ _ _ _ _ _ _ li => li

-- ─── Helpers (lightcutViz.ts lines 116-150) ──────────────────────────────────

def vec3Min (a b : Vec3) : Vec3 := (min a.1 b.1, min a.2.1 b.2.1, min a.2.2 b.2.2)

def vec3Max (a b : Vec3) : Vec3 := (max a.1 b.1, max a.2.1 b.2.1, max a.2.2 b.2.2)

def vec3Dist2 (a b : Vec3) : ℚ :=
  (a.1 - b.1) * (a.1 - b.1) + (a.2.1 - b.2.1) * (a.2.1 - b.2.1) +
    (a.2.2 - b.2.2) * (a.2.2 - b.2.2)

def aabbUnion (a b : AABB) : AABB := ⟨vec3Min a.min b.min, vec3Max a.max b.max⟩

def aabbFromPoint (p : Vec3) : AABB := ⟨p, p⟩

/-- Metric for pairing: squared distance of representatives plus the volume
estimate dx*dy*dz of the union box. -/
def mergeCost (nodeA nodeB : LightcutNode) : ℚ :=
  let posDistSq := vec3Dist2 nodeA.representative.position nodeB.representative.position
  let merged := aabbUnion nodeA.aabb nodeB.aabb
  let dx := merged.max.1 - merged.min.1
  let dy := merged.max.2.1 - merged.min.2.1
  let dz := merged.max.2.2 - merged.min.2.2
  posDistSq + dx * dy * dz

-- ─── Node creation (lightcutViz.ts lines 154-200) ────────────────────────────

def createLeafNode (light : LightSource) (index : ℕ) : LightcutNode :=
  .mk (aabbFromPoint light.position)
      ⟨light.position, light.intensity, light.color⟩
      light.intensity none none 0 1 (index : ℤ)

/-- Internal node: the guarded denominator models the JS expression
(totalInt || 1), which is 1 exactly when the sum of intensities is 0. -/
def createInternalNode (left right : LightcutNode) : LightcutNode :=
  let ab := aabbUnion left.aabb right.aabb
  let totalInt := left.totalIntensity + right.totalIntensity
  let denom := if totalInt = 0 then 1 else totalInt
  let wL := left.totalIntensity / denom
  let wR := right.totalIntensity / denom
  let lp := left.representative.position
  let rp := right.representative.position
  let lc := left.representative.color
  let rc := right.representative.color
  .mk ab
      ⟨(lp.1 * wL + rp.1 * wR, lp.2.1 * wL + rp.2.1 * wR, lp.2.2 * wL + rp.2.2 * wR),
        totalInt,
        (lc.1 * wL + rc.1 * wR, lc.2.1 * wL + rc.2.1 * wR, lc.2.2 * wL + rc.2.2 * wR)⟩
      totalInt (some left) (some right) 0
      (left.lightCount + right.lightCount) (-1)

-- ─── Depth assignment and max depth (lightcutViz.ts lines 204-216) ──────────

def assignDepths : LightcutNode → ℕ → LightcutNode
  | .mk a rep tI l r _ lc li, d =>
    .mk a rep tI
      (match l with | none => none | some c => some (assignDepths c (d + 1)))
      (match r with | none => none | some c => some (assignDepths c (d + 1)))
      d lc li

def treeMaxDepthN : LightcutNode → ℤ
  | .mk _ _ _ none none d _ _ => (d : ℤ)
  | .mk _ _ _ (some l) none _ _ _ => max (treeMaxDepthN l) (-1)
  | .mk _ _ _ none (some r) _ _ _ => max (-1) (treeMaxDepthN r)
  | .mk _ _ _ (some l) (some r) _ _ _ => max (treeMaxDepthN l) (treeMaxDepthN r)

/-- Tree max depth; -1 for the empty tree. -/
def getTreeMaxDepth : Option LightcutNode → ℤ
  | none => -1
  | some n => treeMaxDepthN n

-- ─── Brute-force builder (lightcutViz.ts lines 220-256) ──────────────────────

def defaultLight : LightSource := ⟨(0, 0, 0), 0, (0, 0, 0)⟩

def defaultNode : LightcutNode := createLeafNode defaultLight 0

/-- Ordered pairs (i, j) with i < j < len, in the row-major scan order of the
nested for loops of the source. -/
def pairListUpTo (len : ℕ) : List (ℕ × ℕ) :=
  (List.range len).flatMap
    (fun i => ((List.range len).filter (fun j => i < j)).map (fun j => (i, j)))

/-- Minimal-cost pair search: best pair starts as (0, 1) and is replaced only
on strictly smaller cost, exactly as the source loop updates bestI/bestJ. -/
def findBestPair (nodes : List LightcutNode) : ℕ × ℕ :=
  (pairListUpTo nodes.length).foldl
    (fun best p =>
      if mergeCost (nodes.getD p.1 defaultNode) (nodes.getD p.2 defaultNode) <
          mergeCost (nodes.getD best.1 defaultNode) (nodes.getD best.2 defaultNode)
      then p else best)
    (0, 1)

/-- One iteration of the while loop: merge the best pair, splice out index
bestJ then bestI (higher first, as in the source), push the merged node. -/
def bruteStep (nodes : List LightcutNode) : List LightcutNode :=
  let best := findBestPair nodes
  let merged := createInternalNode (nodes.getD best.1 defaultNode) (nodes.getD best.2 defaultNode)
  ((nodes.eraseIdx best.2).eraseIdx best.1) ++ [merged]

/-- Fuel-indexed version of the while (nodes.length > 1) loop; fuel equal to
the initial node count is always sufficient since each step removes a node. -/
def bruteLoopFuel : ℕ → List LightcutNode → List LightcutNode
  | 0, nodes => nodes
  | fuel + 1, nodes =>
    if nodes.length ≤ 1 then nodes else bruteLoopFuel fuel (bruteStep nodes)

/-- Leaf nodes for the lights with their array indices (the source maps with
the index parameter; here rendered as a recursion carrying the counter). -/
def lightLeavesFrom (i : ℕ) : List LightSource → List LightcutNode
  | [] => []
  | l :: ls => createLeafNode l i :: lightLeavesFrom (i + 1) ls

def lightLeaves (lights : List LightSource) : List LightcutNode :=
  lightLeavesFrom 0 lights

def buildLightcutTreeBruteForce (lights : List LightSource) : Option LightcutNode :=
  match lights with
  | [] => none
  | [l] => some (createLeafNode l 0)
  | l0 :: l1 :: rest =>
    let nodes := lightLeaves (l0 :: l1 :: rest)
    ((bruteLoopFuel nodes.length nodes).head?).map (fun root => assignDepths root 0)

-- ─── KD-tree builders (lightcutViz.ts lines 260-325) ────────────────────────

structure LightItem where
  light : LightSource
  index : ℕ
deriving DecidableEq

/-- Items pairing each light with its original array index. -/
def lightItemsFrom (i : ℕ) : List LightSource → List LightItem
  | [] => []
  | l :: ls => ⟨l, i⟩ :: lightItemsFrom (i + 1) ls

def lightItems (lights : List LightSource) : List LightItem :=
  lightItemsFrom 0 lights

/-- Fold of vec3Min over the subset positions; the JS code starts from an
Infinity sentinel, which for the nonempty subsets the builder passes is the
same as folding from the first position. -/
def subsetMinP : List LightItem → Vec3
  | [] => (0, 0, 0)
  | x :: xs => xs.foldl (fun acc it => vec3Min acc it.light.position) x.light.position

def subsetMaxP : List LightItem → Vec3
  | [] => (0, 0, 0)
  | x :: xs => xs.foldl (fun acc it => vec3Max acc it.light.position) x.light.position

/-- Longest axis selection: axis 0, replaced by 1 then 2 only on strictly
greater extent, as in the source. -/
def longestAxis (minP maxP : Vec3) : ℕ :=
  let e0 := maxP.1 - minP.1
  let e1 := maxP.2.1 - minP.2.1
  let e2 := maxP.2.2 - minP.2.2
  let a1 : ℕ := if e0 < e1 then 1 else 0
  let ea1 := if e0 < e1 then e1 else e0
  if ea1 < e2 then 2 else a1

def posOn (it : LightItem) (axis : ℕ) : ℚ := vget it.light.position axis

/-- Combination step shared by both KD strategies (the source lines
if (!left) return right; if (!right) return left; return internal). -/
def kdCombine : Option LightcutNode → Option LightcutNode → Option LightcutNode
  | none, r => r
  | some l, none => some l
  | some l, some r => some (createInternalNode l r)

/-- Median strategy: sort along the longest axis, split at floor(n/2). -/
def kdMedianRec : List LightItem → Option LightcutNode
  | [] => none
  | [x] => some (createLeafNode x.light x.index)
  | x :: y :: rest =>
    let s := x :: y :: rest
    let minP := subsetMinP s
    let maxP := subsetMaxP s
    let axis := longestAxis minP maxP
    let sorted := s.mergeSort (fun a b => posOn a axis ≤ posOn b axis)
    let mid := sorted.length / 2
    kdCombine (kdMedianRec (sorted.take mid)) (kdMedianRec (sorted.drop mid))
termination_by s => s.length
decreasing_by
  · simp only [List.length_take, List.length_mergeSort, List.length_cons]
    omega
  · simp only [List.length_drop, List.length_mergeSort, List.length_cons]
    omega

/-- Spatial strategy, fuel-indexed: split at the midpoint value of the axis
range; a light goes left iff its coordinate is strictly below the midpoint.
Returns none when the fuel runs out (the source recursion is not total). -/
def kdSpatialRec : ℕ → List LightItem → Option (Option LightcutNode)
  | 0, _ => none
  | fuel + 1, subset =>
    match subset with
    | [] => some none
    | [x] => some (some (createLeafNode x.light x.index))
    | x :: y :: rest =>
      let s := x :: y :: rest
      let minP := subsetMinP s
      let maxP := subsetMaxP s
      let axis := longestAxis minP maxP
      let midpoint := (vget minP axis + vget maxP axis) / 2
      let p := fun it => decide (posOn it axis < midpoint)
      (kdSpatialRec fuel (s.filter p)).bind (fun lt =>
        (kdSpatialRec fuel (s.filter (fun it => !p it))).map (fun rt => kdCombine lt rt))

def buildLightcutTreeKDTreeMedian (lights : List LightSource) : Option LightcutNode :=
  match lights with
  | [] => none
  | l :: ls => (kdMedianRec (lightItems (l :: ls))).map (fun root => assignDepths root 0)

/-- Spatial KD build with fuel; some none means no tree (empty input), none
means the recursion did not terminate within the fuel. -/
def buildLightcutTreeKDTreeSpatial (lights : List LightSource) (fuel : ℕ) :
    Option (Option LightcutNode) :=
  match lights with
  | [] => some none
  | l :: ls => (kdSpatialRec fuel (lightItems (l :: ls))).map
      (fun r => r.map (fun root => assignDepths root 0))

-- ─── Query operations (lightcutViz.ts lines 327-366) ────────────────────────

/-- Walk of getNodesAtDepth: include a node and stop when its depth matches
the target, include a leaf met before the target depth, else recurse.  On a
leaf both the depth test and the leaf test of the source return the node
itself, hence the two identical branches in the first equation. -/
def walkAtDepth (targetDepth : ℕ) : LightcutNode → List LightcutNode
  | .mk a rep tI none none d lc li =>
    if d = targetDepth then [.mk a rep tI none none d lc li]
    else [.mk a rep tI none none d lc li]
  | .mk a rep tI (some l) none d lc li =>
    if d = targetDepth then [.mk a rep tI (some l) none d lc li]
    else walkAtDepth targetDepth l ++ []
  | .mk a rep tI none (some r) d lc li =>
    if d = targetDepth then [.mk a rep tI none (some r) d lc li]
    else [] ++ walkAtDepth targetDepth r
  | .mk a rep tI (some l) (some r) d lc li =>
    if d = targetDepth then [.mk a rep tI (some l) (some r) d lc li]
    else walkAtDepth targetDepth l ++ walkAtDepth targetDepth r

def getNodesAtDepth (root : Option LightcutNode) (targetDepth : ℕ) : List LightcutNode :=
  root.elim [] (walkAtDepth targetDepth)

def nodeKids : LightcutNode → List LightcutNode
  | .mk _ _ _ l r _ _ _ =>
    (match l with | none => [] | some c => [c]) ++
    (match r with | none => [] | some c => [c])

def nodeSize : LightcutNode → ℕ
  | .mk _ _ _ l r _ _ _ =>
    1 + (match l with | none => 0 | some c => nodeSize c) +
      (match r with | none => 0 | some c => nodeSize c)

def queueSize (q : List LightcutNode) : ℕ := (q.map nodeSize).sum

/-- Level-order traversal with an explicit queue, as in flattenTree. -/
def bfsAux : List LightcutNode → List LightcutNode
  | [] => []
  | n :: rest => n :: bfsAux (rest ++ nodeKids n)
termination_by q => queueSize q
decreasing_by
  simp only [queueSize, List.map_append, List.sum_append, List.map_cons, List.sum_cons]
  cases n with
  | mk a rep tI l r d lc li =>
    cases l <;> cases r <;> simp [nodeKids, nodeSize] <;> omega

def flattenTree : Option LightcutNode → List LightcutNode
  | none => []
  | some root => bfsAux [root]

-- ─── GPU serialization (lightcutViz.ts lines 371-435) ───────────────────────

/-- The 16 floats of one GPU node record, in the exact field order of the
source: position(3)+totalIntensity, color(3)+lightCount, aabb.min(3)+leftIdx,
aabb.max(3)+rightIdx. -/
def gpuNodeFloats (n : LightcutNode) (lIdx rIdx : ℚ) : List ℚ :=
  [n.representative.position.1, n.representative.position.2.1, n.representative.position.2.2,
    n.totalIntensity,
    n.representative.color.1, n.representative.color.2.1, n.representative.color.2.2,
    (n.lightCount : ℚ),
    n.aabb.min.1, n.aabb.min.2.1, n.aabb.min.2.2, lIdx,
    n.aabb.max.1, n.aabb.max.2.1, n.aabb.max.2.2, rIdx]

/-- BFS serialisation; i is the index of the node at the head of the queue.
In the source, indices are assigned at dequeue time by a Map keyed on object
identity; since every node object is dequeued exactly once, the index of a
child enqueued while dequeuing node i is i + 1 + (length of the rest of the
queue), which is the arithmetic used here. -/
def gpuAux : List LightcutNode → ℕ → List (List ℚ)
  | [], _ => []
  | n :: rest, i =>
    let base := i + 1 + rest.length
    let lIdx : ℚ := match n.left with | none => -1 | some _ => (base : ℚ)
    let rIdx : ℚ := match n.right, n.left with
      | none, _ => -1
      | some _, none => (base : ℚ)
      | some _, some _ => ((base + 1 : ℕ) : ℚ)
    gpuNodeFloats n lIdx rIdx :: gpuAux (rest ++ nodeKids n) (i + 1)
termination_by q _ => queueSize q
decreasing_by
  simp only [queueSize, List.map_append, List.sum_append, List.map_cons, List.sum_cons]
  cases n with
  | mk a rep tI l r d lc li =>
    cases l <;> cases r <;> simp [nodeKids, nodeSize] <;> omega

/-- flattenTreeForGPU: the flat array of 16 floats per node plus the node
count; an empty tree yields 16 zero floats and count 0 (new Float32Array). -/
def flattenTreeForGPU : Option LightcutNode → List ℚ × ℕ
  | none => (List.replicate 16 0, 0)
  | some root =>
    let recs := gpuAux [root] 0
    (recs.flatten, recs.length)

def gpuRead (data : List ℚ) (k : ℕ) : ℚ := data.getD k 0

/-- GPU-visible view of a node: exactly the serialised fields (representative
position and color, total intensity, light count, aabb) and the child
structure; depth and lightIndex are not part of the wire format. -/
inductive GView : Type where
  | mk : (position : Vec3) → (intensity : ℚ) → (color : Vec3) → (lightCount : ℚ) →
      (aabbMin aabbMax : Vec3) → (left right : Option GView) → GView

def toGView : LightcutNode → GView
  | .mk a rep tI l r _ lc _ =>
    .mk rep.position tI rep.color (lc : ℚ) a.min a.max
      (match l with | none => none | some c => some (toGView c))
      (match r with | none => none | some c => some (toGView c))

/-- Modelled from the spec: the repository ships no host-side re-parser (the
only consumer is the WGSL LightcutGPUNode struct view); this reader follows
the spec wording of the export contract, reading record i at offsets 16*i
with the field order position(3)+intensity, color(3)+lightCount,
aabbMin(3)+leftChildIdx, aabbMax(3)+rightChildIdx, child index -1 meaning no
child, and recursing into the child records. -/
def parseGPUNode (data : List ℚ) : ℕ → ℕ → Option GView
  | 0, _ => none
  | fuel + 1, i =>
    if data.length < 16 * i + 16 then none
    else
      let lIdx := gpuRead data (16 * i + 11)
      let rIdx := gpuRead data (16 * i + 15)
      let lRes : Option (Option GView) :=
        if lIdx < 0 then some none
        else (parseGPUNode data fuel (⌊lIdx⌋).toNat).map some
      let rRes : Option (Option GView) :=
        if rIdx < 0 then some none
        else (parseGPUNode data fuel (⌊rIdx⌋).toNat).map some
      match lRes, rRes with
      | some lo, some ro =>
        some (.mk (gpuRead data (16 * i), gpuRead data (16 * i + 1), gpuRead data (16 * i + 2))
              (gpuRead data (16 * i + 3))
              (gpuRead data (16 * i + 4), gpuRead data (16 * i + 5), gpuRead data (16 * i + 6))
              (gpuRead data (16 * i + 7))
              (gpuRead data (16 * i + 8), gpuRead data (16 * i + 9), gpuRead data (16 * i + 10))
              (gpuRead data (16 * i + 12), gpuRead data (16 * i + 13), gpuRead data (16 * i + 14))
              lo ro)
      | _, _ => none

-- ─── Structural measures used by the claims ─────────────────────────────────

def leavesList : LightcutNode → List LightcutNode
  | .mk a rep tI none none d lc li => [.mk a rep tI none none d lc li]
  | .mk _ _ _ (some l) none _ _ _ => leavesList l ++ []
  | .mk _ _ _ none (some r) _ _ _ => [] ++ leavesList r
  | .mk _ _ _ (some l) (some r) _ _ _ => leavesList l ++ leavesList r

def internalCount : LightcutNode → ℕ
  | .mk _ _ _ none none _ _ _ => 0
  | .mk _ _ _ (some l) none _ _ _ => 1 + internalCount l
  | .mk _ _ _ none (some r) _ _ _ => 1 + internalCount r
  | .mk _ _ _ (some l) (some r) _ _ _ => 1 + internalCount l + internalCount r

/-- Checks that every node has zero or two children. -/
def fullBinB : LightcutNode → Bool
  | .mk _ _ _ none none _ _ _ => true
  | .mk _ _ _ (some l) (some r) _ _ _ => fullBinB l && fullBinB r
  | .mk _ _ _ (some _) none _ _ _ => false
  | .mk _ _ _ none (some _) _ _ _ => false

/-- Checks that every node with a child has lightIndex -1. -/
def internalIdxOKb : LightcutNode → Bool
  | .mk _ _ _ none none _ _ _ => true
  | .mk _ _ _ (some l) none _ _ li => (li == -1) && internalIdxOKb l
  | .mk _ _ _ none (some r) _ _ li => (li == -1) && internalIdxOKb r
  | .mk _ _ _ (some l) (some r) _ _ li =>
    (li == -1) && internalIdxOKb l && internalIdxOKb r

/-- Checks that representative.intensity = totalIntensity at every node. -/
def intensityOKb : LightcutNode → Bool
  | .mk _ rep tI l r _ _ _ =>
    (rep.intensity == tI) &&
    (match l with | none => true | some c => intensityOKb c) &&
    (match r with | none => true | some c => intensityOKb c)

/-- Divergence of the fuel-indexed spatial KD recursion on a subset: no
amount of fuel completes the recursion. -/
def kdSpatialDiverges (subset : List LightItem) : Prop :=
  ∀ fuel, kdSpatialRec fuel subset = none

/-- Leaf lightIndex fields of a subtree, in left-to-right order. -/
def leafIndexList (n : LightcutNode) : List ℤ :=
  (leavesList n).map (fun x => x.lightIndex)

/-- Combined per-node structural check used as the builder loop invariant. -/
def nodeOKb (n : LightcutNode) : Bool :=
  fullBinB n && internalIdxOKb n && intensityOKb n

/-- The shape contract of a builder result on a given input: exactly N
leaves whose lightIndex fields are a permutation of 0..N-1, N-1 internal
nodes, every node with zero or two children, internal nodes carrying
lightIndex -1. -/
def TreeSpec (lights : List LightSource) (t : LightcutNode) : Prop :=
  (leavesList t).length = lights.length ∧
  List.Perm (leafIndexList t) ((List.range lights.length).map Int.ofNat) ∧
  internalCount t = lights.length - 1 ∧
  fullBinB t = true ∧ internalIdxOKb t = true

/-- Contract of a KD recursion result against the subset it was built from:
none only for the empty subset, and a returned tree satisfies the combined
node check with leaves exactly the subset items. -/
def KDResultSpec (items : List LightItem) (o : Option LightcutNode) : Prop :=
  (o = none → items = []) ∧
  (∀ t, o = some t → nodeOKb t = true ∧
    List.Perm (leafIndexList t) (items.map (fun it => Int.ofNat it.index)) ∧
    (leavesList t).length = items.length)

/-- Divergence of the spatial builder wrapper: no fuel completes the build. -/
def spatialBuilderDiverges (lights : List LightSource) : Prop :=
  ∀ fuel, buildLightcutTreeKDTreeSpatial lights fuel = none

/-- Well-formedness of a flattened GPU buffer as the spec demands a consumer
check it: each child slot is -1 or a BFS index strictly after the record and
strictly below the node count. -/
def childSlotsOKb (data : List ℚ) (count : ℕ) : Bool :=
  (List.range count).all (fun k =>
    decide ((gpuRead data (16 * k + 11) = -1 ∨
        ((k : ℚ) < gpuRead data (16 * k + 11) ∧ gpuRead data (16 * k + 11) < (count : ℚ))) ∧
      (gpuRead data (16 * k + 15) = -1 ∨
        ((k : ℚ) < gpuRead data (16 * k + 15) ∧ gpuRead data (16 * k + 15) < (count : ℚ)))))

-- ─── WGSL cut refinement (src/shaders.wgsl lines 220-340) ───────────────────

/-- WGSL vec3 of f32, idealised over the reals since the shader calls sqrt. -/
abbrev RVec3 := ℝ × ℝ × ℝ

def rsub (a b : RVec3) : RVec3 := (a.1 - b.1, a.2.1 - b.2.1, a.2.2 - b.2.2)

def rdot (a b : RVec3) : ℝ := a.1 * b.1 + a.2.1 * b.2.1 + a.2.2 * b.2.2

noncomputable def rlength (v : RVec3) : ℝ := Real.sqrt (rdot v v)

/-- LightcutGPUNode of the WGSL shader (field for field). -/
structure LightcutGPUNode where
  position : RVec3
  intensity : ℝ
  color : RVec3
  lightCount : ℝ
  aabbMin : RVec3
  leftChild : ℝ
  aabbMax : RVec3
  rightChild : ℝ

instance : Inhabited LightcutGPUNode :=
  ⟨⟨(0, 0, 0), 0, (0, 0, 0), 0, (0, 0, 0), 0, (0, 0, 0), 0⟩⟩

/-- The WGSL constant LC_MAX_CUT. -/
def LC_MAX_CUT : ℕ := 32

/-- lightcutErrorBound of the shader: distSq is dot(L, L) + 0.001, dist is
sqrt of distSq, and the bound is intensity / distSq * diag / dist. -/
noncomputable def lightcutErrorBound (node : LightcutGPUNode) (worldPos : RVec3) : ℝ :=
  let L := rsub node.position worldPos
  let distSq := rdot L L + 0.001
  let dist := Real.sqrt distSq
  let diag := rlength (rsub node.aabbMax node.aabbMin)
  node.intensity / distSq * diag / dist

/-- Written from the words of the spec sentence for the error bound:
totalIntensity / (distance^2 + eps) x (aabbDiagonalLength / distance), with
distance the Euclidean distance from the shading point to the representative
position; kept separate so it can be compared with the shader code. -/
noncomputable def specErrorBoundEuclidean (node : LightcutGPUNode) (worldPos : RVec3) : ℝ :=
  let d := rlength (rsub node.position worldPos)
  let diag := rlength (rsub node.aabbMax node.aabbMin)
  node.intensity / (d ^ 2 + 0.001) * (diag / d)

/-- WGSL i32(x) conversion of an f32 value: truncation toward zero. -/
noncomputable def f32toi32 (x : ℝ) : ℤ := if x < 0 then -⌊-x⌋ else ⌊x⌋

section CutRefinement

open scoped Classical

/-- State of the refinement loop: the two fixed-size cut arrays (modelled as
total maps, with the ghost access trace recording every index the shader
would use on them) and the current cut size. -/
structure CutState where
  idx : ℕ → ℕ
  err : ℕ → ℝ
  size : ℕ

noncomputable def updF {α : Type} (f : ℕ → α) (i : ℕ) (v : α) : ℕ → α :=
  fun k => if k = i then v else f k

noncomputable def treeGet (tree : List LightcutGPUNode) (i : ℕ) : LightcutGPUNode :=
  tree.getD i default

/-- Scan for the cut entry with the highest cached error bound; worstErr
starts at -1 and worstIdx at 0, updated on strictly greater error, exactly
as the shader loop does. -/
noncomputable def findWorst (err : ℕ → ℝ) (size : ℕ) : ℕ × ℝ :=
  (List.range size).foldl
    (fun w c => if w.2 < err c then (c, err c) else w) (0, -1)

/-- One iteration body of the greedy refinement loop.  Returns the new state,
the list of cut-array indices read or written during the iteration, and
whether the loop breaks (worst entry is a leaf).  Mirrors the shader: find
worst, read its node id, break if both children missing, else replace the
worst entry with the left child (or zero its error) and append the right
child if capacity remains. -/
noncomputable def lcStep (tree : List LightcutGPUNode) (nodeCount : ℕ) (worldPos : RVec3)
    (s : CutState) : CutState × List ℕ × Bool :=
  let worstIdx := (findWorst s.err s.size).1
  let readsFind := List.range s.size
  let nodeId := s.idx worstIdx
  let node := treeGet tree nodeId
  let leftI := f32toi32 node.leftChild
  let rightI := f32toi32 node.rightChild
  if leftI < 0 ∧ rightI < 0 then
    (s, readsFind ++ [worstIdx], true)
  else
    let s1 : CutState × List ℕ :=
      if 0 ≤ leftI ∧ leftI.toNat < nodeCount then
        (⟨updF s.idx worstIdx leftI.toNat,
          updF s.err worstIdx (lightcutErrorBound (treeGet tree leftI.toNat) worldPos),
          s.size⟩, [worstIdx, worstIdx])
      else
        (⟨s.idx, updF s.err worstIdx 0, s.size⟩, [worstIdx])
    let s2 : CutState × List ℕ :=
      if 0 ≤ rightI ∧ rightI.toNat < nodeCount ∧ s1.1.size < LC_MAX_CUT then
        (⟨updF s1.1.idx s1.1.size rightI.toNat,
          updF s1.1.err s1.1.size (lightcutErrorBound (treeGet tree rightI.toNat) worldPos),
          s1.1.size + 1⟩, [s1.1.size, s1.1.size])
      else (s1.1, [])
    (s2.1, readsFind ++ [worstIdx] ++ s1.2 ++ s2.2, false)

/-- The for (iter < 256) loop with its two break conditions. -/
noncomputable def lcLoop (tree : List LightcutGPUNode) (nodeCount : ℕ) (worldPos : RVec3)
    (maxCut : ℕ) : ℕ → CutState → CutState × List ℕ
  | 0, s => (s, [])
  | fuel + 1, s =>
    if maxCut ≤ s.size then (s, [])
    else
      let step := lcStep tree nodeCount worldPos s
      if step.2.2 then (step.1, step.2.1)
      else
        let rest := lcLoop tree nodeCount worldPos maxCut fuel step.1
        (rest.1, step.2.1 ++ rest.2)

/-- Cut construction part of computeRadianceLightcuts: clamp the requested
cut size to LC_MAX_CUT, return the empty cut when nodeCount is 0, else seed
with the root and run the refinement loop for up to 256 iterations.  The
trace starts with the two seed writes at index 0 and ends with the indices
the final shading loop reads (0..cutSize-1). -/
noncomputable def computeCutLightcuts (tree : List LightcutGPUNode) (nodeCount maxCutReq : ℕ)
    (worldPos : RVec3) : CutState × List ℕ :=
  let maxCut := min maxCutReq LC_MAX_CUT
  if nodeCount = 0 then (⟨fun _ => 0, fun _ => 0, 0⟩, [])
  else
    let s0 : CutState := ⟨updF (fun _ => 0) 0 0,
      updF (fun _ => 0) 0 (lightcutErrorBound (treeGet tree 0) worldPos), 1⟩
    let run := lcLoop tree nodeCount worldPos maxCut 256 s0
    (run.1, 0 :: 0 :: run.2 ++ List.range run.1.size)

end CutRefinement

-- ─── Concrete inputs used by individual claims ──────────────────────────────

/-- Two zero-intensity lights at distinct positions (for the degenerate
representative-weight analysis). -/
def zeroLightA : LightSource := ⟨(1, 0, 0), 0, (1, 0, 0)⟩

def zeroLightB : LightSource := ⟨(3, 0, 0), 0, (0, 0, 1)⟩

/-- A light at the origin; two copies of it share a position exactly. -/
def originLight : LightSource := ⟨(0, 0, 0), 1, (1, 1, 1)⟩

/-- Another duplicated-position light, at (1, 2, 3). -/
def dupLightC : LightSource := ⟨(1, 2, 3), 1, (1, 1, 1)⟩

/-- The example scenario of the spec: 4 unit-intensity white lights at
(0,0,0), (1,0,0), (0,0,1), (1,0,1). -/
def exLights4 : List LightSource :=
  [⟨(0, 0, 0), 1, (1, 1, 1)⟩, ⟨(1, 0, 0), 1, (1, 1, 1)⟩,
   ⟨(0, 0, 1), 1, (1, 1, 1)⟩, ⟨(1, 0, 1), 1, (1, 1, 1)⟩]

/-- A single concrete light and its leaf, used by several witnesses. -/
def exLightW : LightSource := ⟨(5, 2, -1), 3, (1, 1, 1)⟩

def exLeafW : LightcutNode := createLeafNode exLightW 0

/-- Concrete GPU node and shading point for the error-bound comparison:
representative at the origin, box diagonal (1,0,0), shading point (2,0,0). -/
def exGPUNode : LightcutGPUNode :=
  ⟨(0, 0, 0), 1, (1, 1, 1), 1, (0, 0, 0), -1, (1, 0, 0), -1⟩

def exShadePoint : RVec3 := (2, 0, 0)

-- ─── Basic lemmas about the node type ───────────────────────────────────────

@[simp] theorem aabb_mk (a rep tI l r d lc li) :
    (LightcutNode.mk a rep tI l r d lc li).aabb = a := rfl

@[simp] theorem representative_mk (a rep tI l r d lc li) :
    (LightcutNode.mk a rep tI l r d lc li).representative = rep := rfl

@[simp] theorem totalIntensity_mk (a rep tI l r d lc li) :
    (LightcutNode.mk a rep tI l r d lc li).totalIntensity = tI := rfl

@[simp] theorem left_mk (a rep tI l r d lc li) :
    (LightcutNode.mk a rep tI l r d lc li).left = l := rfl

@[simp] theorem right_mk (a rep tI l r d lc li) :
    (LightcutNode.mk a rep tI l r d lc li).right = r := rfl

@[simp] theorem depth_mk (a rep tI l r d lc li) :
    (LightcutNode.mk a rep tI l r d lc li).depth = d := rfl

@[simp] theorem lightCount_mk (a rep tI l r d lc li) :
    (LightcutNode.mk a rep tI l r d lc li).lightCount = lc := rfl

@[simp] theorem lightIndex_mk (a rep tI l r d lc li) :
    (LightcutNode.mk a rep tI l r d lc li).lightIndex = li := rfl

theorem nodeSize_pos (n : LightcutNode) : 0 < nodeSize n := by
  cases n with
  | mk a rep tI l r d lc li => cases l <;> cases r <;> simp [nodeSize]

/-- Induction principle giving access to the children of a node as plain
induction hypotheses, avoiding the nested Option motives of the automatic
recursor. -/
theorem LightcutNode.inductionOn (P : LightcutNode → Prop)
    (h : ∀ a rep tI l r d lc li,
      (∀ c, l = some c → P c) → (∀ c, r = some c → P c) →
      P (.mk a rep tI l r d lc li)) :
    ∀ n, P n := by
  have key : ∀ k n, nodeSize n ≤ k → P n := by
    intro k
    induction k with
    | zero =>
      intro n hn
      exact absurd hn (by have := nodeSize_pos n; omega)
    | succ k ih =>
      intro n hn
      cases n with
      | mk a rep tI l r d lc li =>
        apply h
        · intro c hc
          apply ih
          subst hc
          cases r <;> simp [nodeSize] at hn ⊢ <;> omega
        · intro c hc
          apply ih
          subst hc
          cases l <;> simp [nodeSize] at hn ⊢ <;> omega
  intro n
  exact key (nodeSize n) n le_rfl

-- ─── Structure of created nodes ─────────────────────────────────────────────

theorem createLeafNode_def (light : LightSource) (i : ℕ) :
    createLeafNode light i =
      .mk (aabbFromPoint light.position)
        ⟨light.position, light.intensity, light.color⟩
        light.intensity none none 0 1 (i : ℤ) := rfl

@[simp] theorem leavesList_leaf (light : LightSource) (i : ℕ) :
    leavesList (createLeafNode light i) = [createLeafNode light i] := rfl

@[simp] theorem internalCount_leaf (light : LightSource) (i : ℕ) :
    internalCount (createLeafNode light i) = 0 := rfl

@[simp] theorem fullBinB_leaf (light : LightSource) (i : ℕ) :
    fullBinB (createLeafNode light i) = true := rfl

@[simp] theorem internalIdxOKb_leaf (light : LightSource) (i : ℕ) :
    internalIdxOKb (createLeafNode light i) = true := rfl

@[simp] theorem intensityOKb_leaf (light : LightSource) (i : ℕ) :
    intensityOKb (createLeafNode light i) = true := by
  simp [intensityOKb, createLeafNode]

@[simp] theorem lightIndex_leaf (light : LightSource) (i : ℕ) :
    (createLeafNode light i).lightIndex = (i : ℤ) := rfl

@[simp] theorem left_internal (l r : LightcutNode) :
    (createInternalNode l r).left = some l := rfl

@[simp] theorem right_internal (l r : LightcutNode) :
    (createInternalNode l r).right = some r := rfl

@[simp] theorem totalIntensity_internal (l r : LightcutNode) :
    (createInternalNode l r).totalIntensity = l.totalIntensity + r.totalIntensity := rfl

@[simp] theorem lightCount_internal (l r : LightcutNode) :
    (createInternalNode l r).lightCount = l.lightCount + r.lightCount := rfl

@[simp] theorem lightIndex_internal (l r : LightcutNode) :
    (createInternalNode l r).lightIndex = -1 := rfl

@[simp] theorem repIntensity_internal (l r : LightcutNode) :
    (createInternalNode l r).representative.intensity =
      l.totalIntensity + r.totalIntensity := rfl

theorem leavesList_internal (l r : LightcutNode) :
    leavesList (createInternalNode l r) = leavesList l ++ leavesList r := rfl

theorem internalCount_internal (l r : LightcutNode) :
    internalCount (createInternalNode l r) = 1 + internalCount l + internalCount r := rfl

theorem fullBinB_internal (l r : LightcutNode) :
    fullBinB (createInternalNode l r) = (fullBinB l && fullBinB r) := rfl

theorem internalIdxOKb_internal (l r : LightcutNode) :
    internalIdxOKb (createInternalNode l r) =
      ((-1 : ℤ) == -1 && internalIdxOKb l && internalIdxOKb r) := rfl

theorem intensityOKb_internal (l r : LightcutNode) :
    intensityOKb (createInternalNode l r) =
      ((l.totalIntensity + r.totalIntensity == l.totalIntensity + r.totalIntensity) &&
        intensityOKb l && intensityOKb r) := rfl

theorem internalIdxOKb_internal_eq (l r : LightcutNode) :
    internalIdxOKb (createInternalNode l r) = (internalIdxOKb l && internalIdxOKb r) := by
  rw [internalIdxOKb_internal]; simp

theorem intensityOKb_internal_eq (l r : LightcutNode) :
    intensityOKb (createInternalNode l r) = (intensityOKb l && intensityOKb r) := by
  rw [intensityOKb_internal]; simp

-- ─── C1: representative of a zero-intensity merge ───────────────────────────

/-- C1 counterexample: building the brute-force tree over the two concrete
zero-intensity lights at (1,0,0) and (3,0,0) merges them once, and the root
representative position is (0,0,0), not the unweighted 50/50 average
(2,0,0) of the children positions that the claim asserts. -/
theorem c1_counterexample :
    (buildLightcutTreeBruteForce [zeroLightA, zeroLightB]).map
        (fun t => t.representative.position) = some ((0 : ℚ), (0 : ℚ), (0 : ℚ)) ∧
    ((0 : ℚ), (0 : ℚ), (0 : ℚ)) ≠
      (((1 : ℚ) + 3) / 2, ((0 : ℚ) + 0) / 2, ((0 : ℚ) + 0) / 2) := by
  constructor
  · with_unfolding_all rfl
  · with_unfolding_all decide

/-- C1 (amended): when both children of a merge carry zero total intensity,
the guarded denominator (totalInt or 1) is 1, so the weights are 0 and the
representative position and color of the internal node are the zero vector
rather than the 50/50 average of the children; no division by zero occurs
since the denominator the code divides by equals 1 in this case. -/
theorem c1_zero_intensity_merge (l r : LightcutNode)
    (hl : l.totalIntensity = 0) (hr : r.totalIntensity = 0) :
    (createInternalNode l r).representative.position = ((0 : ℚ), (0 : ℚ), (0 : ℚ)) ∧
    (createInternalNode l r).representative.color = ((0 : ℚ), (0 : ℚ), (0 : ℚ)) ∧
    (if l.totalIntensity + r.totalIntensity = 0 then (1 : ℚ)
      else l.totalIntensity + r.totalIntensity) = 1 := by
  simp [createInternalNode, hl, hr]

/-- C1 witness: the amended statement instantiated on the two concrete
zero-intensity leaves. -/
theorem c1_zero_intensity_merge_witness :
    (createInternalNode (createLeafNode zeroLightA 0) (createLeafNode zeroLightB 1)).representative.position
        = ((0 : ℚ), (0 : ℚ), (0 : ℚ)) ∧
    (createInternalNode (createLeafNode zeroLightA 0) (createLeafNode zeroLightB 1)).representative.color
        = ((0 : ℚ), (0 : ℚ), (0 : ℚ)) ∧
    (if (createLeafNode zeroLightA 0).totalIntensity + (createLeafNode zeroLightB 1).totalIntensity = 0
      then (1 : ℚ)
      else (createLeafNode zeroLightA 0).totalIntensity + (createLeafNode zeroLightB 1).totalIntensity) = 1 :=
  c1_zero_intensity_merge _ _ rfl rfl

-- ─── C2: the spatial KD recursion on duplicate positions ────────────────────

/-- C2 (code bug): with two lights at the same position, every spatial split
puts both lights in the right bucket (their coordinate is never strictly
below the midpoint of a degenerate range), so the recursion calls itself on
an identical subset; the fuel-indexed embedding therefore exhausts any
amount of fuel: the source recursion never terminates, contradicting the
claim that the spatial builder is total on such inputs. -/
theorem c2_spatial_divergence_on_duplicates :
    kdSpatialDiverges (lightItems [originLight, originLight]) := by
  intro fuel
  induction fuel with
  | zero => rfl
  | succ n ih =>
    have hitems : lightItems [originLight, originLight] =
        [⟨originLight, 0⟩, ⟨originLight, 1⟩] := rfl
    rw [hitems] at ih ⊢
    have hnil : kdSpatialRec n ([] : List LightItem) = none ∨
        kdSpatialRec n ([] : List LightItem) = some none := by
      cases n
      · exact Or.inl rfl
      · exact Or.inr rfl
    simp only [kdSpatialRec]
    norm_num [subsetMinP, subsetMaxP, vec3Min, vec3Max, longestAxis, vget,
      posOn, originLight, List.filter_cons, List.filter_nil]
    norm_num [subsetMinP, subsetMaxP, vec3Min, vec3Max, longestAxis, vget,
      posOn, originLight, List.filter_cons, List.filter_nil] at ih
    rcases hnil with h | h <;> rw [h] <;> simp [ih]

-- ─── C9: the 4-light example scenario ───────────────────────────────────────

set_option maxRecDepth 4000 in
/-- C9: the brute-force build over the 4 unit-intensity lights at (0,0,0),
(1,0,0), (0,0,1), (1,0,1) yields a tree with exactly 3 internal nodes, root
totalIntensity 4, root lightCount 4, and max depth at most 2. -/
theorem c9_example_scenario :
    (buildLightcutTreeBruteForce exLights4).map internalCount = some 3 ∧
    (buildLightcutTreeBruteForce exLights4).map (fun t => t.totalIntensity) = some 4 ∧
    (buildLightcutTreeBruteForce exLights4).map (fun t => t.lightCount) = some 4 ∧
    getTreeMaxDepth (buildLightcutTreeBruteForce exLights4) ≤ 2 := by
  refine ⟨?_, ?_, ?_, ?_⟩ <;> with_unfolding_all decide

-- ─── C6: the cut-refinement error bound ─────────────────────────────────────

/-- C6 (amended): for every node and shading point, the shader error bound
equals totalIntensity / (d^2 + eps) x (aabbDiagonalLength / sqrt (d^2 + eps))
with d the Euclidean distance from the shading point to the representative
position and eps = 0.001; the denominator of the second factor is
sqrt(d^2 + eps), not the raw distance d, which is also why the bound is
well defined at d = 0. -/
theorem c6_errorBound_closed_form (node : LightcutGPUNode) (worldPos : RVec3) :
    lightcutErrorBound node worldPos =
      node.intensity / ((rlength (rsub node.position worldPos)) ^ 2 + 0.001) *
        (rlength (rsub node.aabbMax node.aabbMin) /
          Real.sqrt ((rlength (rsub node.position worldPos)) ^ 2 + 0.001)) := by
  unfold lightcutErrorBound rlength
  have h : (0:ℝ) ≤ rdot (rsub node.position worldPos) (rsub node.position worldPos) := by
    have h1 := mul_self_nonneg (node.position.1 - worldPos.1)
    have h2 := mul_self_nonneg (node.position.2.1 - worldPos.2.1)
    have h3 := mul_self_nonneg (node.position.2.2 - worldPos.2.2)
    unfold rdot rsub
    dsimp only
    linarith
  rw [Real.sq_sqrt h]
  ring

/-- C6 counterexample: at the concrete node (representative at the origin,
box diagonal (1,0,0)) and shading point (2,0,0), the shader bound
1/4.001 x 1/sqrt(4.001) differs from the claimed formula value
1/4.001 x 1/2, because sqrt(4.001) is not the Euclidean distance 2. -/
theorem c6_counterexample :
    lightcutErrorBound exGPUNode exShadePoint ≠
      specErrorBoundEuclidean exGPUNode exShadePoint := by
  have h1 : Real.sqrt 1 = 1 := Real.sqrt_one
  have h4 : Real.sqrt 4 = 2 := by
    rw [show (4:ℝ) = 2 ^ 2 by norm_num, Real.sqrt_sq (by norm_num : (0:ℝ) ≤ 2)]
  simp only [lightcutErrorBound, specErrorBoundEuclidean, rlength, rdot, rsub,
    exGPUNode, exShadePoint]
  norm_num [h1, h4]
  have hsp4001 : (0:ℝ) < Real.sqrt 4001 := Real.sqrt_pos.mpr (by norm_num)
  have hsp1000 : (0:ℝ) ≤ Real.sqrt 1000 := Real.sqrt_nonneg 1000
  have key : 2 * Real.sqrt 1000 < Real.sqrt 4001 := by
    have h2 : Real.sqrt 4000 = 2 * Real.sqrt 1000 := by
      rw [show (4000:ℝ) = 4 * 1000 by norm_num, Real.sqrt_mul (by norm_num : (0:ℝ) ≤ 4), h4]
    rw [← h2]
    exact Real.sqrt_lt_sqrt (by norm_num) (by norm_num)
  apply ne_of_lt
  rw [div_div_eq_mul_div, div_lt_iff₀ hsp4001]
  have hmul := mul_lt_mul_of_pos_left key (show (0:ℝ) < 500 / 4001 by norm_num)
  linarith

-- ─── C5: refinement loop safety ─────────────────────────────────────────────

theorem findWorst_lt (err : ℕ → ℝ) (size : ℕ) (h : 1 ≤ size) :
    (findWorst err size).1 < size := by
  have gen : ∀ (l : List ℕ) (acc : ℕ × ℝ), (∀ c ∈ l, c < size) → acc.1 < size →
      (l.foldl (fun w c => if w.2 < err c then (c, err c) else w) acc).1 < size := by
    intro l
    induction l with
    | nil => intro acc _ hacc; exact hacc
    | cons c cs ih =>
      intro acc hmem hacc
      simp only [List.foldl_cons]
      apply ih
      · intro x hx; exact hmem x (List.mem_cons_of_mem _ hx)
      · by_cases hc : acc.2 < err c
        · simpa [hc] using hmem c (List.mem_cons_self c cs)
        · simpa [hc] using hacc
  unfold findWorst
  exact gen _ _ (fun c hc => List.mem_range.mp hc) (by omega)

theorem lcStep_safe (tree : List LightcutGPUNode) (nodeCount : ℕ) (worldPos : RVec3)
    (s : CutState) (h1 : 1 ≤ s.size) (h32 : s.size ≤ LC_MAX_CUT) :
    1 ≤ (lcStep tree nodeCount worldPos s).1.size ∧
    (lcStep tree nodeCount worldPos s).1.size ≤ LC_MAX_CUT ∧
    ∀ i ∈ (lcStep tree nodeCount worldPos s).2.1, i < LC_MAX_CUT := by
  have hw : (findWorst s.err s.size).1 < s.size := findWorst_lt _ _ h1
  unfold lcStep
  dsimp only
  split_ifs <;>
    refine ⟨?_, ?_, ?_⟩ <;>
      simp_all [LC_MAX_CUT, List.mem_append, List.mem_range] <;>
        omega

theorem lcLoop_safe (tree : List LightcutGPUNode) (nodeCount : ℕ) (worldPos : RVec3)
    (maxCut : ℕ) : ∀ (fuel : ℕ) (s : CutState), 1 ≤ s.size → s.size ≤ LC_MAX_CUT →
    (1 ≤ (lcLoop tree nodeCount worldPos maxCut fuel s).1.size ∧
     (lcLoop tree nodeCount worldPos maxCut fuel s).1.size ≤ LC_MAX_CUT ∧
     ∀ i ∈ (lcLoop tree nodeCount worldPos maxCut fuel s).2, i < LC_MAX_CUT) := by
  intro fuel
  induction fuel with
  | zero => intro s h1 h32; exact ⟨h1, h32, by simp [lcLoop]⟩
  | succ n ih =>
    intro s h1 h32
    rw [lcLoop]
    by_cases hstop : maxCut ≤ s.size
    · simp only [if_pos hstop]
      exact ⟨h1, h32, by simp⟩
    · simp only [if_neg hstop]
      have hstep := lcStep_safe tree nodeCount worldPos s h1 h32
      by_cases hhalt : (lcStep tree nodeCount worldPos s).2.2
      · simp only [hhalt, if_pos]
        exact ⟨hstep.1, hstep.2.1, hstep.2.2⟩
      · simp only [hhalt, if_neg, Bool.false_eq_true, not_false_iff]
        have hrest := ih (lcStep tree nodeCount worldPos s).1 hstep.1 hstep.2.1
        refine ⟨hrest.1, hrest.2.1, ?_⟩
        intro i hi
        rcases List.mem_append.mp hi with hmem | hmem
        · exact hstep.2.2 i hmem
        · exact hrest.2.2 i hmem

/-- C5: for every flattened tree, node count, requested cut size and shading
point, the cut produced by the refinement traversal has size at most the
capacity constant LC_MAX_CUT = 32, every read or write of the fixed-size cut
arrays recorded in the access trace uses an index strictly below 32, and the
computation with a requested size maxCutReq behaves exactly as with the
clamped request min maxCutReq 32 (so any request above 32 is a silent clamp
to 32, with no overflow). -/
theorem c5_cut_arrays_safe (tree : List LightcutGPUNode) (nodeCount maxCutReq : ℕ)
    (worldPos : RVec3) :
    (computeCutLightcuts tree nodeCount maxCutReq worldPos).1.size ≤ LC_MAX_CUT ∧
    ((computeCutLightcuts tree nodeCount maxCutReq worldPos).2.all
      (fun i => decide (i < LC_MAX_CUT))) = true ∧
    computeCutLightcuts tree nodeCount maxCutReq worldPos =
      computeCutLightcuts tree nodeCount (min maxCutReq LC_MAX_CUT) worldPos := by
  refine ⟨?_, ?_, ?_⟩
  · unfold computeCutLightcuts
    by_cases h0 : nodeCount = 0
    · simp [h0]
    · simp only [if_neg h0]
      exact (lcLoop_safe tree nodeCount worldPos (min maxCutReq LC_MAX_CUT) 256 _
        (by simp) (by simp [LC_MAX_CUT])).2.1
  · rw [List.all_eq_true]
    intro i hi
    rw [decide_eq_true_iff]
    revert hi
    unfold computeCutLightcuts
    by_cases h0 : nodeCount = 0
    · simp [h0]
    · simp only [if_neg h0]
      have hrun := lcLoop_safe tree nodeCount worldPos (min maxCutReq LC_MAX_CUT) 256
        ⟨updF (fun _ => 0) 0 0,
          updF (fun _ => 0) 0 (lightcutErrorBound (treeGet tree 0) worldPos), 1⟩
        (by simp) (by simp [LC_MAX_CUT])
      intro hi
      have h2 := hrun.2.1
      have h3 := hrun.2.2
      have hval : LC_MAX_CUT = 32 := rfl
      rcases List.mem_cons.mp hi with h | hi
      · omega
      rcases List.mem_cons.mp hi with h | hi
      · omega
      rcases List.mem_append.mp hi with h | h
      · exact h3 i h
      · have := List.mem_range.mp h
        omega
  · unfold computeCutLightcuts
    rw [min_assoc, min_self]

-- ─── C7: depth slices partition the leaf set ────────────────────────────────

theorem walkAtDepth_flatMap_leaves (D : ℕ) (n : LightcutNode) :
    (walkAtDepth D n).flatMap leavesList = leavesList n := by
  induction n using LightcutNode.inductionOn with
  | h a rep tI l r d lc li ihl ihr =>
    cases l with
    | none =>
      cases r with
      | none => by_cases hd : d = D <;> simp [walkAtDepth, hd]
      | some rc => by_cases hd : d = D <;> simp [walkAtDepth, leavesList, hd, ihr rc rfl]
    | some lc2 =>
      cases r with
      | none => by_cases hd : d = D <;> simp [walkAtDepth, leavesList, hd, ihl lc2 rfl]
      | some rc =>
        by_cases hd : d = D <;>
          simp [walkAtDepth, leavesList, hd, ihl lc2 rfl, ihr rc rfl]

/-- C7: for a tree and any depth D up to the max depth, the nodes returned
by getNodesAtDepth form a horizontal cut: the concatenation of their leaf
lists is exactly the leaf list of the whole tree (so nothing is omitted and,
counted with multiplicity, nothing is duplicated), and whenever the leaves
of the tree are pairwise distinct the leaf sets of the returned nodes are
pairwise disjoint. -/
theorem c7_depth_slice_partition (t : LightcutNode) (D : ℕ)
    (hD : (D : ℤ) ≤ getTreeMaxDepth (some t)) :
    ((getNodesAtDepth (some t) D).flatMap leavesList = leavesList t) ∧
    ((leavesList t).Nodup →
      (((getNodesAtDepth (some t) D).map leavesList).Pairwise List.Disjoint)) := by
  have he : (getNodesAtDepth (some t) D).flatMap leavesList = leavesList t :=
    walkAtDepth_flatMap_leaves D t
  refine ⟨he, fun hnd => ?_⟩
  have hflat : ((getNodesAtDepth (some t) D).flatMap leavesList).Nodup := he ▸ hnd
  rw [List.flatMap_def] at hflat
  exact (List.nodup_flatten.mp hflat).2

/-- C7 witness: the partition property instantiated on a single-leaf tree at
depth 0. -/
theorem c7_depth_slice_partition_witness :
    ((0 : ℤ) ≤ getTreeMaxDepth (some exLeafW)) ∧
    (((getNodesAtDepth (some exLeafW) 0).flatMap leavesList = leavesList exLeafW) ∧
      ((leavesList exLeafW).Nodup →
        (((getNodesAtDepth (some exLeafW) 0).map leavesList).Pairwise List.Disjoint))) :=
  ⟨by with_unfolding_all decide,
    c7_depth_slice_partition exLeafW 0 (by with_unfolding_all decide)⟩

-- ─── Structural invariants: counting, assignDepths preservation ─────────────

theorem fullBinB_leaves_internal (t : LightcutNode) (hfb : fullBinB t = true) :
    internalCount t + 1 = (leavesList t).length := by
  induction t using LightcutNode.inductionOn with
  | h a rep tI l r d lc li ihl ihr =>
    cases l with
    | none =>
      cases r with
      | none => simp [internalCount, leavesList]
      | some rc => simp [fullBinB] at hfb
    | some lc2 =>
      cases r with
      | none => simp [fullBinB] at hfb
      | some rc =>
        simp only [fullBinB, Bool.and_eq_true] at hfb
        have h1 := ihl lc2 rfl hfb.1
        have h2 := ihr rc rfl hfb.2
        simp only [internalCount, leavesList, List.length_append]
        omega

theorem assignDepths_mk (a rep tI l r d0 lc li d) :
    assignDepths (.mk a rep tI l r d0 lc li) d =
      .mk a rep tI
        (match l with | none => none | some c => some (assignDepths c (d + 1)))
        (match r with | none => none | some c => some (assignDepths c (d + 1)))
        d lc li := by
  cases l <;> cases r <;> rfl

theorem assignDepths_leafIndexList (n : LightcutNode) :
    ∀ d, leafIndexList (assignDepths n d) = leafIndexList n := by
  induction n using LightcutNode.inductionOn with
  | h a rep tI l r d0 lc li ihl ihr =>
    intro d
    cases l with
    | none =>
      cases r with
      | none => simp [assignDepths_mk, leafIndexList, leavesList]
      | some rc =>
        have ih := ihr rc rfl (d + 1)
        simp only [assignDepths_mk, leafIndexList, leavesList, List.map_append,
          List.nil_append] at ih ⊢
        exact ih
    | some lc2 =>
      cases r with
      | none =>
        have ih := ihl lc2 rfl (d + 1)
        simp only [assignDepths_mk, leafIndexList, leavesList, List.map_append,
          List.append_nil] at ih ⊢
        exact ih
      | some rc =>
        have ih1 := ihl lc2 rfl (d + 1)
        have ih2 := ihr rc rfl (d + 1)
        simp only [assignDepths_mk, leafIndexList, leavesList, List.map_append] at ih1 ih2 ⊢
        rw [ih1, ih2]

theorem assignDepths_internalCount (n : LightcutNode) :
    ∀ d, internalCount (assignDepths n d) = internalCount n := by
  induction n using LightcutNode.inductionOn with
  | h a rep tI l r d0 lc li ihl ihr =>
    intro d
    cases l with
    | none =>
      cases r with
      | none => simp [assignDepths_mk, internalCount]
      | some rc =>
        have ih := ihr rc rfl (d + 1)
        simp only [assignDepths_mk, internalCount] at ih ⊢
        omega
    | some lc2 =>
      cases r with
      | none =>
        have ih := ihl lc2 rfl (d + 1)
        simp only [assignDepths_mk, internalCount] at ih ⊢
        omega
      | some rc =>
        have ih1 := ihl lc2 rfl (d + 1)
        have ih2 := ihr rc rfl (d + 1)
        simp only [assignDepths_mk, internalCount] at ih1 ih2 ⊢
        omega

theorem assignDepths_fullBinB (n : LightcutNode) :
    ∀ d, fullBinB (assignDepths n d) = fullBinB n := by
  induction n using LightcutNode.inductionOn with
  | h a rep tI l r d0 lc li ihl ihr =>
    intro d
    cases l with
    | none =>
      cases r with
      | none => simp [assignDepths_mk, fullBinB]
      | some rc => simp [assignDepths_mk, fullBinB]
    | some lc2 =>
      cases r with
      | none => simp [assignDepths_mk, fullBinB]
      | some rc =>
        have ih1 := ihl lc2 rfl (d + 1)
        have ih2 := ihr rc rfl (d + 1)
        simp only [assignDepths_mk, fullBinB] at ih1 ih2 ⊢
        rw [ih1, ih2]

theorem assignDepths_internalIdxOKb (n : LightcutNode) :
    ∀ d, internalIdxOKb (assignDepths n d) = internalIdxOKb n := by
  induction n using LightcutNode.inductionOn with
  | h a rep tI l r d0 lc li ihl ihr =>
    intro d
    cases l with
    | none =>
      cases r with
      | none => simp [assignDepths_mk, internalIdxOKb]
      | some rc =>
        have ih := ihr rc rfl (d + 1)
        simp only [assignDepths_mk, internalIdxOKb] at ih ⊢
        rw [ih]
    | some lc2 =>
      cases r with
      | none =>
        have ih := ihl lc2 rfl (d + 1)
        simp only [assignDepths_mk, internalIdxOKb] at ih ⊢
        rw [ih]
      | some rc =>
        have ih1 := ihl lc2 rfl (d + 1)
        have ih2 := ihr rc rfl (d + 1)
        simp only [assignDepths_mk, internalIdxOKb] at ih1 ih2 ⊢
        rw [ih1, ih2]

theorem assignDepths_intensityOKb (n : LightcutNode) :
    ∀ d, intensityOKb (assignDepths n d) = intensityOKb n := by
  induction n using LightcutNode.inductionOn with
  | h a rep tI l r d0 lc li ihl ihr =>
    intro d
    cases l with
    | none =>
      cases r with
      | none => simp [assignDepths_mk, intensityOKb]
      | some rc =>
        have ih := ihr rc rfl (d + 1)
        simp only [assignDepths_mk, intensityOKb] at ih ⊢
        rw [ih]
    | some lc2 =>
      cases r with
      | none =>
        have ih := ihl lc2 rfl (d + 1)
        simp only [assignDepths_mk, intensityOKb] at ih ⊢
        rw [ih]
      | some rc =>
        have ih1 := ihl lc2 rfl (d + 1)
        have ih2 := ihr rc rfl (d + 1)
        simp only [assignDepths_mk, intensityOKb] at ih1 ih2 ⊢
        rw [ih1, ih2]

theorem assignDepths_leavesLength (n : LightcutNode) (d : ℕ) :
    (leavesList (assignDepths n d)).length = (leavesList n).length := by
  have h := assignDepths_leafIndexList n d
  have h1 : (leafIndexList (assignDepths n d)).length = (leafIndexList n).length := by rw [h]
  simpa [leafIndexList] using h1

-- ─── Permutation plumbing for the brute-force loop ──────────────────────────

theorem perm_flatMap_congr {α β : Type} {l l' : List α} (f : α → List β)
    (h : List.Perm l l') : List.Perm (l.flatMap f) (l'.flatMap f) := by
  induction h with
  | nil => rfl
  | cons x h ih => simp only [List.flatMap_cons]; exact ih.append_left _
  | swap x y l2 =>
    simp only [List.flatMap_cons]
    rw [← List.append_assoc, ← List.append_assoc]
    exact (List.perm_append_comm).append_right _
  | trans h1 h2 ih1 ih2 => exact ih1.trans ih2

theorem perm_getD_cons_eraseIdx {α : Type} (L : List α) (j : ℕ) (d : α)
    (hj : j < L.length) :
    List.Perm L (L.getD j d :: L.eraseIdx j) := by
  have h1 : L.getD j d = L[j] := List.getD_eq_getElem L d hj
  have h2 : L.eraseIdx j = L.take j ++ L.drop (j + 1) :=
    List.eraseIdx_eq_take_drop_succ L j
  have h3 : L = L.take j ++ L[j] :: L.drop (j + 1) := by
    conv_lhs => rw [← List.take_append_drop j L]
    rw [List.getElem_cons_drop]
  rw [h1, h2]
  conv_lhs => rw [h3]
  exact List.perm_middle

theorem getD_eraseIdx_of_lt {α : Type} (L : List α) (i j : ℕ) (d : α)
    (hij : i < j) :
    (L.eraseIdx j).getD i d = L.getD i d := by
  rw [List.getD_eq_getElem?_getD, List.getD_eq_getElem?_getD,
    List.eraseIdx_eq_take_drop_succ]
  by_cases hi : i < L.length
  · have htake : i < (L.take j).length := by
      simp only [List.length_take]
      omega
    rw [List.getElem?_append, if_pos htake, List.getElem?_take_of_lt hij]
  · have h1 : L[i]? = none := List.getElem?_eq_none (by omega)
    have h2 : (L.take j ++ L.drop (j + 1))[i]? = none := by
      apply List.getElem?_eq_none
      simp only [List.length_append, List.length_take, List.length_drop]
      omega
    rw [h1, h2]

theorem perm_two_getD_eraseIdx {α : Type} (L : List α) (i j : ℕ) (d : α)
    (hij : i < j) (hj : j < L.length) :
    List.Perm L (L.getD i d :: L.getD j d :: (L.eraseIdx j).eraseIdx i) := by
  have hlen1 : (L.eraseIdx j).length = L.length - 1 := List.length_eraseIdx_of_lt hj
  have hi' : i < (L.eraseIdx j).length := by omega
  have p1 := perm_getD_cons_eraseIdx L j d hj
  have p2 := perm_getD_cons_eraseIdx (L.eraseIdx j) i d hi'
  rw [getD_eraseIdx_of_lt L i j d hij] at p2
  refine p1.trans ?_
  refine (p2.cons _).trans ?_
  exact List.Perm.swap _ _ _

-- ─── Brute-force builder invariants ─────────────────────────────────────────

theorem pairListUpTo_mem {len : ℕ} {p : ℕ × ℕ} (hp : p ∈ pairListUpTo len) :
    p.1 < p.2 ∧ p.2 < len := by
  simp only [pairListUpTo, List.mem_flatMap, List.mem_map, List.mem_filter,
    List.mem_range, decide_eq_true_iff] at hp
  obtain ⟨i, hi, j, ⟨hjr, hij⟩, rfl⟩ := hp
  exact ⟨hij, hjr⟩

theorem findBestPair_bounds (nodes : List LightcutNode) (h2 : 2 ≤ nodes.length) :
    (findBestPair nodes).1 < (findBestPair nodes).2 ∧
    (findBestPair nodes).2 < nodes.length := by
  have gen : ∀ (l : List (ℕ × ℕ)) (acc : ℕ × ℕ),
      (∀ p ∈ l, p.1 < p.2 ∧ p.2 < nodes.length) →
      acc.1 < acc.2 ∧ acc.2 < nodes.length →
      ((l.foldl (fun best p =>
        if mergeCost (nodes.getD p.1 defaultNode) (nodes.getD p.2 defaultNode) <
            mergeCost (nodes.getD best.1 defaultNode) (nodes.getD best.2 defaultNode)
        then p else best) acc).1 <
        (l.foldl (fun best p =>
        if mergeCost (nodes.getD p.1 defaultNode) (nodes.getD p.2 defaultNode) <
            mergeCost (nodes.getD best.1 defaultNode) (nodes.getD best.2 defaultNode)
        then p else best) acc).2 ∧
        (l.foldl (fun best p =>
        if mergeCost (nodes.getD p.1 defaultNode) (nodes.getD p.2 defaultNode) <
            mergeCost (nodes.getD best.1 defaultNode) (nodes.getD best.2 defaultNode)
        then p else best) acc).2 < nodes.length) := by
    intro l
    induction l with
    | nil => intro acc _ hacc; exact hacc
    | cons q qs ih =>
      intro acc hmem hacc
      simp only [List.foldl_cons]
      apply ih
      · intro x hx; exact hmem x (List.mem_cons_of_mem _ hx)
      · by_cases hq : mergeCost (nodes.getD q.1 defaultNode) (nodes.getD q.2 defaultNode) <
            mergeCost (nodes.getD acc.1 defaultNode) (nodes.getD acc.2 defaultNode)
        · rw [if_pos hq]
          exact hmem q (List.mem_cons_self q qs)
        · rw [if_neg hq]
          exact hacc
  unfold findBestPair
  exact gen _ _ (fun p hp => pairListUpTo_mem hp) ⟨by omega, by omega⟩

theorem nodeOKb_leaf (light : LightSource) (i : ℕ) :
    nodeOKb (createLeafNode light i) = true := by
  simp [nodeOKb]

theorem nodeOKb_internal {l r : LightcutNode} (hl : nodeOKb l = true)
    (hr : nodeOKb r = true) : nodeOKb (createInternalNode l r) = true := by
  simp only [nodeOKb, Bool.and_eq_true] at hl hr ⊢
  refine ⟨⟨?_, ?_⟩, ?_⟩
  · rw [fullBinB_internal]
    simp [hl.1.1, hr.1.1]
  · rw [internalIdxOKb_internal_eq]
    simp [hl.1.2, hr.1.2]
  · rw [intensityOKb_internal_eq]
    simp [hl.2, hr.2]

theorem leafIndexList_internal (l r : LightcutNode) :
    leafIndexList (createInternalNode l r) = leafIndexList l ++ leafIndexList r := by
  simp [leafIndexList, leavesList_internal]

theorem bruteStep_length (nodes : List LightcutNode) (h2 : 2 ≤ nodes.length) :
    (bruteStep nodes).length = nodes.length - 1 := by
  obtain ⟨hij, hj⟩ := findBestPair_bounds nodes h2
  unfold bruteStep
  have h1 : (nodes.eraseIdx (findBestPair nodes).2).length = nodes.length - 1 :=
    List.length_eraseIdx_of_lt hj
  have h2' : ((nodes.eraseIdx (findBestPair nodes).2).eraseIdx (findBestPair nodes).1).length
      = nodes.length - 2 := by
    rw [List.length_eraseIdx_of_lt (by omega)]
    omega
  simp only [List.length_append, List.length_cons, List.length_nil, h2']
  omega

theorem bruteStep_spec (nodes : List LightcutNode) (h2 : 2 ≤ nodes.length)
    (hall : ∀ n ∈ nodes, nodeOKb n = true) :
    (∀ n ∈ bruteStep nodes, nodeOKb n = true) ∧
    List.Perm ((bruteStep nodes).flatMap leafIndexList) (nodes.flatMap leafIndexList) := by
  obtain ⟨hij, hj⟩ := findBestPair_bounds nodes h2
  have hperm := perm_two_getD_eraseIdx nodes (findBestPair nodes).1 (findBestPair nodes).2
    defaultNode hij hj
  have hmemi : nodes.getD (findBestPair nodes).1 defaultNode ∈ nodes := by
    rw [List.getD_eq_getElem nodes defaultNode (by omega)]
    exact List.getElem_mem _
  have hmemj : nodes.getD (findBestPair nodes).2 defaultNode ∈ nodes := by
    rw [List.getD_eq_getElem nodes defaultNode hj]
    exact List.getElem_mem _
  constructor
  · intro n hn
    unfold bruteStep at hn
    rcases List.mem_append.mp hn with hmem | hmem
    · have hsub : n ∈ nodes :=
        List.eraseIdx_subset _ _ (List.eraseIdx_subset _ _ hmem)
      exact hall n hsub
    · have : n = createInternalNode (nodes.getD (findBestPair nodes).1 defaultNode)
          (nodes.getD (findBestPair nodes).2 defaultNode) := by
        simpa using hmem
      rw [this]
      exact nodeOKb_internal (hall _ hmemi) (hall _ hmemj)
  · unfold bruteStep
    have hstep : (((nodes.eraseIdx (findBestPair nodes).2).eraseIdx (findBestPair nodes).1)
        ++ [createInternalNode (nodes.getD (findBestPair nodes).1 defaultNode)
            (nodes.getD (findBestPair nodes).2 defaultNode)]).flatMap leafIndexList =
        ((nodes.eraseIdx (findBestPair nodes).2).eraseIdx (findBestPair nodes).1).flatMap
          leafIndexList ++
        (leafIndexList (nodes.getD (findBestPair nodes).1 defaultNode) ++
          leafIndexList (nodes.getD (findBestPair nodes).2 defaultNode)) := by
      rw [List.flatMap_append]
      simp [leafIndexList_internal]
    rw [hstep]
    have htarget := perm_flatMap_congr leafIndexList hperm
    simp only [List.flatMap_cons] at htarget
    refine List.perm_append_comm.trans ?_
    rw [List.append_assoc]
    exact htarget.symm

theorem bruteLoopFuel_spec : ∀ (fuel : ℕ) (nodes : List LightcutNode),
    (∀ n ∈ nodes, nodeOKb n = true) →
    ((∀ n ∈ bruteLoopFuel fuel nodes, nodeOKb n = true) ∧
     List.Perm ((bruteLoopFuel fuel nodes).flatMap leafIndexList)
       (nodes.flatMap leafIndexList)) := by
  intro fuel
  induction fuel with
  | zero => intro nodes hall; exact ⟨hall, List.Perm.refl _⟩
  | succ n ih =>
    intro nodes hall
    rw [bruteLoopFuel]
    by_cases hle : nodes.length ≤ 1
    · simp only [if_pos hle]
      exact ⟨hall, List.Perm.refl _⟩
    · simp only [if_neg hle]
      have h2 : 2 ≤ nodes.length := by omega
      obtain ⟨hok, hperm⟩ := bruteStep_spec nodes h2 hall
      obtain ⟨hok2, hperm2⟩ := ih (bruteStep nodes) hok
      exact ⟨hok2, hperm2.trans hperm⟩

theorem bruteLoopFuel_length : ∀ (fuel : ℕ) (nodes : List LightcutNode),
    nodes.length ≤ fuel + 1 → 1 ≤ nodes.length →
    (bruteLoopFuel fuel nodes).length = 1 := by
  intro fuel
  induction fuel with
  | zero =>
    intro nodes hle h1
    have : nodes.length = 1 := by omega
    simpa [bruteLoopFuel] using this
  | succ n ih =>
    intro nodes hle h1
    rw [bruteLoopFuel]
    by_cases hle1 : nodes.length ≤ 1
    · simp only [if_pos hle1]
      omega
    · simp only [if_neg hle1]
      have h2 : 2 ≤ nodes.length := by omega
      have hstep := bruteStep_length nodes h2
      exact ih (bruteStep nodes) (by omega) (by omega)

theorem lightLeavesFrom_length (ls : List LightSource) :
    ∀ i, (lightLeavesFrom i ls).length = ls.length := by
  induction ls with
  | nil => intro i; rfl
  | cons l ls ih => intro i; simp [lightLeavesFrom, ih]

theorem lightLeavesFrom_ok (ls : List LightSource) :
    ∀ i, ∀ n ∈ lightLeavesFrom i ls, nodeOKb n = true := by
  induction ls with
  | nil => intro i n hn; simp [lightLeavesFrom] at hn
  | cons l ls ih =>
    intro i n hn
    rcases List.mem_cons.mp hn with h | h
    · rw [h]; exact nodeOKb_leaf l i
    · exact ih (i + 1) n h

theorem lightLeavesFrom_flatMap (ls : List LightSource) :
    ∀ i, (lightLeavesFrom i ls).flatMap leafIndexList =
      (List.range' i ls.length).map Int.ofNat := by
  induction ls with
  | nil => intro i; rfl
  | cons l ls ih =>
    intro i
    simp only [lightLeavesFrom, List.flatMap_cons, List.length_cons, List.range'_succ,
      List.map_cons, ih (i + 1)]
    simp [leafIndexList]

theorem brute_spec (lights : List LightSource) :
    (buildLightcutTreeBruteForce lights).elim (lights = []) (TreeSpec lights) := by
  match lights with
  | [] => simp [buildLightcutTreeBruteForce]
  | [l] =>
    simp only [buildLightcutTreeBruteForce, Option.elim]
    refine ⟨by simp [leavesList], ?_, by simp [internalCount], by simp, by simp⟩
    have h1 : leafIndexList (createLeafNode l 0) = [(0 : ℤ)] := rfl
    have h2 : (List.range ([l] : List LightSource).length).map Int.ofNat =
        [(0 : ℤ)] := rfl
    rw [h1, h2]
  | l0 :: l1 :: rest =>
    have hlen : (lightLeaves (l0 :: l1 :: rest)).length = (l0 :: l1 :: rest).length :=
      lightLeavesFrom_length _ 0
    have hok : ∀ n ∈ lightLeaves (l0 :: l1 :: rest), nodeOKb n = true :=
      lightLeavesFrom_ok _ 0
    have hflat : (lightLeaves (l0 :: l1 :: rest)).flatMap leafIndexList =
        (List.range' 0 (l0 :: l1 :: rest).length).map Int.ofNat :=
      lightLeavesFrom_flatMap _ 0
    have hlooplen := bruteLoopFuel_length (lightLeaves (l0 :: l1 :: rest)).length
      (lightLeaves (l0 :: l1 :: rest)) (by omega) (by rw [hlen]; simp)
    obtain ⟨t, ht⟩ := List.length_eq_one.mp hlooplen
    obtain ⟨hokfin, hpermfin⟩ := bruteLoopFuel_spec (lightLeaves (l0 :: l1 :: rest)).length
      (lightLeaves (l0 :: l1 :: rest)) hok
    rw [ht] at hokfin hpermfin
    have hOK : nodeOKb t = true := hokfin t (by simp)
    simp only [List.flatMap_cons, List.flatMap_nil, List.append_nil] at hpermfin
    rw [hflat] at hpermfin
    have hpermT : List.Perm (leafIndexList t)
        ((List.range (l0 :: l1 :: rest).length).map Int.ofNat) := by
      rw [List.range_eq_range']
      exact hpermfin
    have hbuild : buildLightcutTreeBruteForce (l0 :: l1 :: rest) =
        some (assignDepths t 0) := by
      simp only [buildLightcutTreeBruteForce]
      rw [ht]
      rfl
    rw [hbuild]
    simp only [Option.elim]
    simp only [nodeOKb, Bool.and_eq_true] at hOK
    have hfb : fullBinB t = true := hOK.1.1
    have hidx : internalIdxOKb t = true := hOK.1.2
    have hleavesLen : (leavesList t).length = (l0 :: l1 :: rest).length := by
      have h1 : (leafIndexList t).length =
          ((List.range (l0 :: l1 :: rest).length).map Int.ofNat).length :=
        hpermT.length_eq
      have h2 : ((List.range (l0 :: l1 :: rest).length).map Int.ofNat).length
          = (l0 :: l1 :: rest).length := by
        rw [List.length_map, List.length_range]
      have h3 : (leafIndexList t).length = (leavesList t).length := by
        simp only [leafIndexList, List.length_map]
      omega
    refine ⟨?_, ?_, ?_, ?_, ?_⟩
    · rw [assignDepths_leavesLength]
      exact hleavesLen
    · rw [assignDepths_leafIndexList]
      exact hpermT
    · rw [assignDepths_internalCount]
      have := fullBinB_leaves_internal t hfb
      omega
    · rw [assignDepths_fullBinB]
      exact hfb
    · rw [assignDepths_internalIdxOKb]
      exact hidx

-- ─── KD builder invariants ──────────────────────────────────────────────────

theorem lightItemsFrom_map (ls : List LightSource) :
    ∀ i, (lightItemsFrom i ls).map (fun it => Int.ofNat it.index) =
      (List.range' i ls.length).map Int.ofNat := by
  induction ls with
  | nil => intro i; rfl
  | cons l ls ih =>
    intro i
    simp only [lightItemsFrom, List.map_cons, List.length_cons, List.range'_succ, ih (i + 1)]

theorem lightItemsFrom_length (ls : List LightSource) :
    ∀ i, (lightItemsFrom i ls).length = ls.length := by
  induction ls with
  | nil => intro i; rfl
  | cons l ls ih => intro i; simp [lightItemsFrom, ih]

theorem KDResultSpec_perm {A A' : List LightItem} (h : List.Perm A A')
    (o : Option LightcutNode) (hs : KDResultSpec A o) : KDResultSpec A' o := by
  obtain ⟨h1, h2⟩ := hs
  constructor
  · intro hnone
    have hA := h1 hnone
    subst hA
    exact List.Perm.eq_nil h.symm
  · intro t ht
    obtain ⟨hok, hperm, hlen⟩ := h2 t ht
    exact ⟨hok, hperm.trans (h.map _), by rw [hlen, h.length_eq]⟩

theorem kdCombine_spec (A B : List LightItem) (lo ro : Option LightcutNode)
    (hl : KDResultSpec A lo) (hr : KDResultSpec B ro) :
    KDResultSpec (A ++ B) (kdCombine lo ro) := by
  cases lo with
  | none =>
    have hA := hl.1 rfl
    subst hA
    simpa [kdCombine] using hr
  | some l =>
    cases ro with
    | none =>
      have hB := hr.1 rfl
      subst hB
      simpa [kdCombine] using hl
    | some r =>
      obtain ⟨hokl, hperml, hlenl⟩ := hl.2 l rfl
      obtain ⟨hokr, hpermr, hlenr⟩ := hr.2 r rfl
      constructor
      · intro hnone
        simp [kdCombine] at hnone
      · intro t ht
        have ht' : t = createInternalNode l r := by simpa [kdCombine] using ht.symm
        subst ht'
        refine ⟨nodeOKb_internal hokl hokr, ?_, ?_⟩
        · rw [leafIndexList_internal, List.map_append]
          exact hperml.append hpermr
        · rw [leavesList_internal, List.length_append, List.length_append, hlenl, hlenr]

theorem kdMedianRec_spec (subset : List LightItem) :
    KDResultSpec subset (kdMedianRec subset) := by
  have main : ∀ (len : ℕ) (s : List LightItem), s.length ≤ len →
      KDResultSpec s (kdMedianRec s) := by
    intro len
    induction len with
    | zero =>
      intro s hle
      have hnil : s = [] := List.length_eq_zero.mp (by omega)
      subst hnil
      exact ⟨fun _ => rfl, fun t ht => by simp [kdMedianRec] at ht⟩
    | succ len ih =>
      intro s hle
      match s with
      | [] => exact ⟨fun _ => rfl, fun t ht => by simp [kdMedianRec] at ht⟩
      | [x] =>
        refine ⟨fun h => by simp [kdMedianRec] at h, fun t ht => ?_⟩
        have ht' : t = createLeafNode x.light x.index := by
          simpa [kdMedianRec] using ht.symm
        subst ht'
        exact ⟨nodeOKb_leaf _ _, List.Perm.refl _, by simp [leavesList]⟩
      | x :: y :: rest =>
        have key : ∀ (le : LightItem → LightItem → Bool),
            KDResultSpec (x :: y :: rest)
              (kdCombine
                (kdMedianRec (((x :: y :: rest).mergeSort le).take
                  (((x :: y :: rest).mergeSort le).length / 2)))
                (kdMedianRec (((x :: y :: rest).mergeSort le).drop
                  (((x :: y :: rest).mergeSort le).length / 2)))) := by
          intro le
          have hperm : List.Perm ((x :: y :: rest).mergeSort le) (x :: y :: rest) :=
            List.mergeSort_perm _ le
          have hslen : ((x :: y :: rest).mergeSort le).length = rest.length + 2 := by
            rw [List.length_mergeSort]
            simp
          have hmid1 : 1 ≤ ((x :: y :: rest).mergeSort le).length / 2 := by omega
          have hmid2 : ((x :: y :: rest).mergeSort le).length / 2 <
              ((x :: y :: rest).mergeSort le).length := by omega
          have hlen2 : (rest.length + 2) ≤ len + 1 := by simpa using hle
          have htakelen : (((x :: y :: rest).mergeSort le).take
              (((x :: y :: rest).mergeSort le).length / 2)).length ≤ len := by
            rw [List.length_take]
            omega
          have hdroplen : (((x :: y :: rest).mergeSort le).drop
              (((x :: y :: rest).mergeSort le).length / 2)).length ≤ len := by
            rw [List.length_drop]
            omega
          have htake := ih _ htakelen
          have hdrop := ih _ hdroplen
          have hcomb := kdCombine_spec _ _ _ _ htake hdrop
          rw [List.take_append_drop] at hcomb
          exact KDResultSpec_perm hperm _ hcomb
        simpa only [kdMedianRec] using key _
  exact main subset.length subset le_rfl

theorem kdSpatialRec_spec : ∀ (fuel : ℕ) (s : List LightItem) (o : Option LightcutNode),
    kdSpatialRec fuel s = some o → KDResultSpec s o := by
  intro fuel
  induction fuel with
  | zero => intro s o h; simp [kdSpatialRec] at h
  | succ n ih =>
    intro s o h
    match s with
    | [] =>
      have ho : o = none := by simpa [kdSpatialRec] using h.symm
      subst ho
      exact ⟨fun _ => rfl, fun t ht => by simp at ht⟩
    | [x] =>
      have ho : o = some (createLeafNode x.light x.index) := by
        simpa [kdSpatialRec] using h.symm
      subst ho
      refine ⟨fun hc => by simp at hc, fun t ht => ?_⟩
      have ht' : t = createLeafNode x.light x.index := by simpa using ht.symm
      subst ht'
      exact ⟨nodeOKb_leaf _ _, List.Perm.refl _, by simp [leavesList]⟩
    | x :: y :: rest =>
      have key : ∀ (p : LightItem → Bool) (o2 : Option LightcutNode),
          ((kdSpatialRec n ((x :: y :: rest).filter p)).bind (fun lt =>
            (kdSpatialRec n ((x :: y :: rest).filter (fun it => !p it))).map
              (fun rt => kdCombine lt rt))) = some o2 →
          KDResultSpec (x :: y :: rest) o2 := by
        intro p o2 hbind
        cases hL : kdSpatialRec n ((x :: y :: rest).filter p) with
        | none => rw [hL] at hbind; simp at hbind
        | some lt =>
          cases hR : kdSpatialRec n ((x :: y :: rest).filter (fun it => !p it)) with
          | none => rw [hL, hR] at hbind; simp at hbind
          | some rt =>
            rw [hL, hR] at hbind
            have ho2 : kdCombine lt rt = o2 := by simpa using hbind
            subst ho2
            have hl := ih _ _ hL
            have hr := ih _ _ hR
            have hcomb := kdCombine_spec _ _ _ _ hl hr
            exact KDResultSpec_perm (List.filter_append_perm p _) _ hcomb
      simp only [kdSpatialRec] at h
      exact key _ _ h

theorem TreeSpec_of_KD (lights : List LightSource) (t : LightcutNode)
    (hok : nodeOKb t = true)
    (hperm : List.Perm (leafIndexList t)
      ((lightItems lights).map (fun it => Int.ofNat it.index)))
    (hlen : (leavesList t).length = (lightItems lights).length) :
    TreeSpec lights (assignDepths t 0) := by
  have hitems : (lightItems lights).length = lights.length := lightItemsFrom_length _ 0
  have hmap : (lightItems lights).map (fun it => Int.ofNat it.index) =
      (List.range lights.length).map Int.ofNat := by
    rw [List.range_eq_range']
    exact lightItemsFrom_map _ 0
  simp only [nodeOKb, Bool.and_eq_true] at hok
  refine ⟨?_, ?_, ?_, ?_, ?_⟩
  · rw [assignDepths_leavesLength, hlen, hitems]
  · rw [assignDepths_leafIndexList, ← hmap]
    exact hperm
  · rw [assignDepths_internalCount]
    have hfb := fullBinB_leaves_internal t hok.1.1
    omega
  · rw [assignDepths_fullBinB]
    exact hok.1.1
  · rw [assignDepths_internalIdxOKb]
    exact hok.1.2

theorem median_builder_spec (lights : List LightSource) :
    (buildLightcutTreeKDTreeMedian lights).elim (lights = []) (TreeSpec lights) := by
  match lights with
  | [] => simp [buildLightcutTreeKDTreeMedian]
  | l :: ls =>
    have hspec := kdMedianRec_spec (lightItems (l :: ls))
    cases h : kdMedianRec (lightItems (l :: ls)) with
    | none =>
      have hnil := hspec.1 h
      have hzero : (lightItemsFrom 0 (l :: ls)).length = 0 := by
        rw [show lightItemsFrom 0 (l :: ls) = lightItems (l :: ls) from rfl, hnil]
        rfl
      rw [lightItemsFrom_length] at hzero
      simp at hzero
    | some t =>
      obtain ⟨hok, hperm, hlen⟩ := hspec.2 t h
      have hbuild : buildLightcutTreeKDTreeMedian (l :: ls) = some (assignDepths t 0) := by
        simp only [buildLightcutTreeKDTreeMedian]
        rw [h]
        rfl
      rw [hbuild]
      exact TreeSpec_of_KD _ _ hok hperm hlen

theorem spatial_builder_spec (lights : List LightSource) (fuel : ℕ) (t : LightcutNode)
    (h : buildLightcutTreeKDTreeSpatial lights fuel = some (some t)) :
    TreeSpec lights t := by
  match lights with
  | [] => simp [buildLightcutTreeKDTreeSpatial] at h
  | l :: ls =>
    simp only [buildLightcutTreeKDTreeSpatial] at h
    cases hrec : kdSpatialRec fuel (lightItems (l :: ls)) with
    | none => rw [hrec] at h; simp at h
    | some o =>
      rw [hrec] at h
      cases o with
      | none => simp at h
      | some t0 =>
        have ht : t = assignDepths t0 0 := by simpa using h.symm
        subst ht
        have hspec := kdSpatialRec_spec fuel (lightItems (l :: ls)) _ hrec
        obtain ⟨hok, hperm, hlen⟩ := hspec.2 t0 rfl
        exact TreeSpec_of_KD _ _ hok hperm hlen

theorem kdSpatialRec_dup_diverges (l : LightSource) (i j : ℕ) :
    ∀ fuel, kdSpatialRec fuel [⟨l, i⟩, ⟨l, j⟩] = none := by
  intro fuel
  induction fuel with
  | zero => rfl
  | succ n ih =>
    have hnil : kdSpatialRec n ([] : List LightItem) = none ∨
        kdSpatialRec n ([] : List LightItem) = some none := by
      cases n
      · exact Or.inl rfl
      · exact Or.inr rfl
    simp only [kdSpatialRec]
    simp only [subsetMinP, subsetMaxP, List.foldl_cons, List.foldl_nil, vec3Min, vec3Max,
      min_self, max_self, Prod.mk.eta, add_self_div_two, posOn, lt_self_iff_false,
      List.filter_cons, List.filter_nil]
    norm_num
    rcases hnil with h | h <;> rw [h] <;> simp [ih]

-- ─── C3: builder output shape ───────────────────────────────────────────────

/-- C3 counterexample: for the spatial strategy on two lights sharing the
position (1,2,3), no amount of fuel makes the builder return: the source
recursion diverges, so on this non-empty input no tree with N leaves is
returned, contradicting the claim for the kdtree-spatial builder. -/
theorem c3_counterexample : spatialBuilderDiverges [dupLightC, dupLightC] := by
  intro fuel
  have h := kdSpatialRec_dup_diverges dupLightC 0 1 fuel
  have hitems : lightItems [dupLightC, dupLightC] =
      [⟨dupLightC, 0⟩, ⟨dupLightC, 1⟩] := rfl
  simp only [buildLightcutTreeKDTreeSpatial, hitems, h]
  rfl

/-- C3 (amended): the brute-force and kdtree-median builders return, for
every non-empty input of N lights, a tree with exactly N leaves whose
lightIndex fields are a permutation of 0..N-1, N-1 internal nodes
(lightIndex -1), and no node with exactly one child; the kdtree-spatial
builder satisfies the same contract whenever its recursion terminates
(with duplicate light positions it does not terminate). -/
theorem c3_builders_shape :
    (∀ lights, (buildLightcutTreeBruteForce lights).elim (lights = []) (TreeSpec lights)) ∧
    (∀ lights, (buildLightcutTreeKDTreeMedian lights).elim (lights = []) (TreeSpec lights)) ∧
    (∀ lights fuel t, buildLightcutTreeKDTreeSpatial lights fuel = some (some t) →
      TreeSpec lights t) :=
  ⟨brute_spec, median_builder_spec, spatial_builder_spec⟩

/-- C3 witness: the spatial part of the amended claim applied to a concrete
one-light input, with the hypothesis discharged by kernel evaluation. -/
theorem c3_builders_shape_witness :
    buildLightcutTreeKDTreeSpatial [exLightW] 1 = some (some exLeafW) ∧
    TreeSpec [exLightW] exLeafW :=
  ⟨by with_unfolding_all rfl,
    c3_builders_shape.2.2 [exLightW] 1 exLeafW (by with_unfolding_all rfl)⟩

-- ─── BFS and GPU serialisation machinery ────────────────────────────────────

theorem queueSize_nodeKids (n : LightcutNode) : queueSize (nodeKids n) + 1 = nodeSize n := by
  cases n with
  | mk a rep tI l r d lc li =>
    cases l <;> cases r <;> simp [nodeKids, nodeSize, queueSize] <;> omega

theorem queueSize_cons (n : LightcutNode) (rest : List LightcutNode) :
    queueSize (n :: rest) = nodeSize n + queueSize rest := by
  simp [queueSize]

theorem queueSize_append (q q' : List LightcutNode) :
    queueSize (q ++ q') = queueSize q + queueSize q' := by
  simp [queueSize]

theorem queueSize_step (n : LightcutNode) (rest : List LightcutNode) :
    queueSize (rest ++ nodeKids n) + 1 = queueSize (n :: rest) := by
  rw [queueSize_append, queueSize_cons]
  have := queueSize_nodeKids n
  omega

theorem queueSize_ge_length (q : List LightcutNode) : q.length ≤ queueSize q := by
  induction q with
  | nil => simp [queueSize]
  | cons n rest ih =>
    rw [queueSize_cons]
    have := nodeSize_pos n
    simp only [List.length_cons]
    omega

/-- Induction along the BFS queue evolution. -/
theorem queue_inductionOn (P : List LightcutNode → Prop) (h0 : P [])
    (h1 : ∀ n rest, P (rest ++ nodeKids n) → P (n :: rest)) : ∀ q, P q := by
  have key : ∀ k q, queueSize q ≤ k → P q := by
    intro k
    induction k with
    | zero =>
      intro q hq
      cases q with
      | nil => exact h0
      | cons n rest =>
        rw [queueSize_cons] at hq
        have := nodeSize_pos n
        omega
    | succ k ih =>
      intro q hq
      cases q with
      | nil => exact h0
      | cons n rest =>
        refine h1 n rest (ih _ ?_)
        have := queueSize_step n rest
        omega
  exact fun q => key (queueSize q) q le_rfl

theorem gpuNodeFloats_length (n : LightcutNode) (a b : ℚ) :
    (gpuNodeFloats n a b).length = 16 := rfl

theorem gpuAux_len16 : ∀ (q : List LightcutNode), ∀ i, ∀ x ∈ gpuAux q i, x.length = 16 := by
  refine queue_inductionOn _ ?_ ?_
  · intro i x hx
    simp [gpuAux] at hx
  · intro n rest ih i x hx
    rw [gpuAux] at hx
    rcases List.mem_cons.mp hx with h | h
    · rw [h]; rfl
    · exact ih (i + 1) x h

theorem gpuAux_length : ∀ (q : List LightcutNode), ∀ i, (gpuAux q i).length = queueSize q := by
  refine queue_inductionOn _ ?_ ?_
  · intro i; simp [gpuAux, queueSize]
  · intro n rest ih i
    rw [gpuAux]
    simp only [List.length_cons, ih (i + 1)]
    have := queueSize_step n rest
    omega

theorem bfsAux_length : ∀ (q : List LightcutNode), (bfsAux q).length = queueSize q := by
  refine queue_inductionOn _ ?_ ?_
  · simp [bfsAux, queueSize]
  · intro n rest ih
    rw [bfsAux]
    simp only [List.length_cons, ih]
    have := queueSize_step n rest
    omega

theorem gpuAux_cons (n : LightcutNode) (rest : List LightcutNode) (i : ℕ) :
    gpuAux (n :: rest) i =
      gpuNodeFloats n
        (match n.left with | none => -1 | some _ => ((i + 1 + rest.length : ℕ) : ℚ))
        (match n.right, n.left with
          | none, _ => -1
          | some _, none => ((i + 1 + rest.length : ℕ) : ℚ)
          | some _, some _ => ((i + 1 + rest.length + 1 : ℕ) : ℚ)) ::
      gpuAux (rest ++ nodeKids n) (i + 1) := by
  rw [gpuAux]

theorem recs_drop_step {recs : List (List ℚ)} {n : LightcutNode}
    {rest : List LightcutNode} {j : ℕ}
    (h : recs.drop j = gpuAux (n :: rest) j) :
    recs.drop (j + 1) = gpuAux (rest ++ nodeKids n) (j + 1) := by
  have h1 : recs.drop (j + 1) = (recs.drop j).drop 1 := by
    rw [List.drop_drop]
  rw [h1, h, gpuAux_cons]
  rfl

theorem recs_drop_advance {recs : List (List ℚ)} :
    ∀ (m : ℕ) (Q : List LightcutNode) (j : ℕ), m ≤ Q.length →
    recs.drop j = gpuAux Q j →
    recs.drop (j + m) = gpuAux (Q.drop m ++ (Q.take m).flatMap nodeKids) (j + m) := by
  intro m
  induction m with
  | zero =>
    intro Q j _ h
    simpa using h
  | succ m ih =>
    intro Q j hm h
    cases Q with
    | nil => simp at hm
    | cons q0 Q2 =>
      have hm2 : m ≤ Q2.length := by simpa using hm
      have hstep := recs_drop_step h
      have hadv := ih (Q2 ++ nodeKids q0) (j + 1) (by simp; omega) hstep
      have hq : (Q2 ++ nodeKids q0).drop m ++ ((Q2 ++ nodeKids q0).take m).flatMap nodeKids =
          ((q0 :: Q2).drop (m + 1)) ++ ((q0 :: Q2).take (m + 1)).flatMap nodeKids := by
        rw [List.drop_append_of_le_length hm2, List.take_append_of_le_length hm2]
        simp only [List.drop_succ_cons, List.take_succ_cons, List.flatMap_cons]
        rw [List.append_assoc]
      rw [hq] at hadv
      have harith : j + 1 + m = j + (m + 1) := by omega
      rw [harith] at hadv
      exact hadv

theorem recs_getD_head {recs : List (List ℚ)} {q : List LightcutNode} {j : ℕ}
    (h : recs.drop j = gpuAux q j) :
    recs.getD j [] = (gpuAux q j).getD 0 [] := by
  rw [List.getD_eq_getElem?_getD, List.getD_eq_getElem?_getD]
  have h1 : recs[j]? = (recs.drop j)[0]? := by
    rw [List.getElem?_drop]
    norm_num
  rw [h1, h]

theorem flatten_length_16 (recs : List (List ℚ)) (h : ∀ x ∈ recs, x.length = 16) :
    recs.flatten.length = 16 * recs.length := by
  induction recs with
  | nil => simp
  | cons x xs ih =>
    simp only [List.flatten_cons, List.length_append, List.length_cons]
    rw [h x (List.mem_cons_self x xs), ih (fun y hy => h y (List.mem_cons_of_mem x hy))]
    ring

theorem flatten_getD_16 (recs : List (List ℚ)) (h : ∀ x ∈ recs, x.length = 16) :
    ∀ (i off : ℕ), i < recs.length → off < 16 →
    recs.flatten.getD (16 * i + off) 0 = (recs.getD i []).getD off 0 := by
  induction recs with
  | nil => intro i off hi _; simp at hi
  | cons x xs ih =>
    intro i off hi hoff
    have hx : x.length = 16 := h x (List.mem_cons_self x xs)
    cases i with
    | zero =>
      simp only [List.flatten_cons, Nat.mul_zero, Nat.zero_add, List.getD_cons_zero]
      rw [List.getD_eq_getElem?_getD, List.getD_eq_getElem?_getD,
        List.getElem?_append, if_pos (by omega)]
    | succ i2 =>
      have hi2 : i2 < xs.length := by simpa using hi
      have harith : 16 * (i2 + 1) + off = x.length + (16 * i2 + off) := by
        rw [hx]; ring
      simp only [List.flatten_cons, List.getD_cons_succ]
      rw [List.getD_eq_getElem?_getD, harith, List.getElem?_append_right (by omega)]
      have : x.length + (16 * i2 + off) - x.length = 16 * i2 + off := by omega
      rw [this, ← List.getD_eq_getElem?_getD]
      exact ih (fun y hy => h y (List.mem_cons_of_mem x hy)) i2 off hi2 hoff

theorem recs_drop_child {recs : List (List ℚ)} {n : LightcutNode}
    {S : List LightcutNode} {i : ℕ}
    (h : recs.drop i = gpuAux (n :: S) i) :
    recs.drop (i + 1 + S.length) =
      gpuAux (nodeKids n ++ S.flatMap nodeKids) (i + 1 + S.length) := by
  have hstep := recs_drop_step h
  have hadv := recs_drop_advance S.length (S ++ nodeKids n) (i + 1) (by simp) hstep
  rw [List.drop_left, List.take_left] at hadv
  exact hadv

theorem parseGPU_correct (root : LightcutNode) :
    ∀ (n : LightcutNode) (S : List LightcutNode) (i fuel : ℕ),
      (gpuAux [root] 0).drop i = gpuAux (n :: S) i →
      nodeSize n ≤ fuel →
      parseGPUNode (gpuAux [root] 0).flatten fuel i = some (toGView n) := by
  have hlen16 : ∀ x ∈ gpuAux [root] 0, x.length = 16 := gpuAux_len16 [root] 0
  have hdatalen : (gpuAux [root] 0).flatten.length = 16 * (gpuAux [root] 0).length :=
    flatten_length_16 _ hlen16
  intro n
  induction n using LightcutNode.inductionOn with
  | h a rep tI l r d lc li ihl ihr =>
    intro S i fuel hdrop hfuel
    have hilt : i < (gpuAux [root] 0).length := by
      have hlen := congrArg List.length hdrop
      rw [List.length_drop,
        gpuAux_length ((LightcutNode.mk a rep tI l r d lc li) :: S) i,
        queueSize_cons] at hlen
      have hpos := nodeSize_pos (LightcutNode.mk a rep tI l r d lc li)
      omega
    have hbound : ¬ ((gpuAux [root] 0).flatten.length < 16 * i + 16) := by
      rw [hdatalen]
      omega
    have hrec0 := recs_getD_head hdrop
    rw [gpuAux_cons (LightcutNode.mk a rep tI l r d lc li) S i] at hrec0
    simp only [List.getD_cons_zero] at hrec0
    have hread : ∀ off : ℕ, off < 16 →
        gpuRead ((gpuAux [root] 0).flatten) (16 * i + off) =
          ((gpuAux [root] 0).getD i []).getD off 0 := by
      intro off hoff
      exact flatten_getD_16 _ hlen16 i off hilt hoff
    have hpos := nodeSize_pos (LightcutNode.mk a rep tI l r d lc li)
    cases fuel with
    | zero => omega
    | succ f =>
      have hchild := recs_drop_child hdrop
      cases l with
      | none =>
        cases r with
        | none =>
          have hrec1 : (gpuAux [root] 0).getD i [] =
              gpuNodeFloats (LightcutNode.mk a rep tI none none d lc li) (-1) (-1) := by
            rw [hrec0]
            rfl
          simp only [parseGPUNode, if_neg hbound]
          have h11 := hread 11 (by omega)
          have h15 := hread 15 (by omega)
          rw [hrec1] at h11 h15
          have hv11 : ((gpuNodeFloats (LightcutNode.mk a rep tI none none d lc li)
              (-1) (-1)).getD 11 0) = -1 := rfl
          have hv15 : ((gpuNodeFloats (LightcutNode.mk a rep tI none none d lc li)
              (-1) (-1)).getD 15 0) = -1 := rfl
          rw [hv11] at h11
          rw [hv15] at h15
          rw [h11, h15, if_pos (by norm_num : (-1 : ℚ) < 0)]
          have hfield : ∀ off : ℕ, off < 16 →
              gpuRead ((gpuAux [root] 0).flatten) (16 * i + off) =
                ((gpuNodeFloats (LightcutNode.mk a rep tI none none d lc li)
                  (-1) (-1)).getD off 0) := by
            intro off hoff
            rw [hread off hoff, hrec1]
          have hf0 := hfield 0 (by omega)
          rw [Nat.add_zero] at hf0
          rw [hf0, hfield 1 (by omega), hfield 2 (by omega),
            hfield 3 (by omega), hfield 4 (by omega), hfield 5 (by omega),
            hfield 6 (by omega), hfield 7 (by omega), hfield 8 (by omega),
            hfield 9 (by omega), hfield 10 (by omega), hfield 12 (by omega),
            hfield 13 (by omega), hfield 14 (by omega)]
          rfl
        | some rc =>
          have hrec1 : (gpuAux [root] 0).getD i [] =
              gpuNodeFloats (LightcutNode.mk a rep tI none (some rc) d lc li)
                (-1) (((i + 1 + S.length : ℕ) : ℚ)) := by
            rw [hrec0]
            rfl
          have hkids : nodeKids (LightcutNode.mk a rep tI none (some rc) d lc li) = [rc] := rfl
          rw [hkids] at hchild
          have hrcspec := ihr rc rfl (S.flatMap nodeKids) (i + 1 + S.length) f
            hchild (by simp [nodeSize] at hfuel ⊢; omega)
          simp only [parseGPUNode, if_neg hbound]
          have h11 := hread 11 (by omega)
          have h15 := hread 15 (by omega)
          rw [hrec1] at h11 h15
          have hv11 : ((gpuNodeFloats (LightcutNode.mk a rep tI none (some rc) d lc li)
              (-1) (((i + 1 + S.length : ℕ) : ℚ))).getD 11 0) = -1 := rfl
          have hv15 : ((gpuNodeFloats (LightcutNode.mk a rep tI none (some rc) d lc li)
              (-1) (((i + 1 + S.length : ℕ) : ℚ))).getD 15 0) =
              ((i + 1 + S.length : ℕ) : ℚ) := rfl
          rw [hv11] at h11
          rw [hv15] at h15
          rw [h11, h15, if_pos (by norm_num : (-1 : ℚ) < 0),
            if_neg (by exact not_lt.mpr (Nat.cast_nonneg _))]
          have hfloor : (⌊((i + 1 + S.length : ℕ) : ℚ)⌋).toNat = i + 1 + S.length := by
            rw [Int.floor_natCast]
            exact Int.toNat_natCast _
          rw [hfloor, hrcspec]
          have hfield : ∀ off : ℕ, off < 16 →
              gpuRead ((gpuAux [root] 0).flatten) (16 * i + off) =
                ((gpuNodeFloats (LightcutNode.mk a rep tI none (some rc) d lc li)
                  (-1) (((i + 1 + S.length : ℕ) : ℚ))).getD off 0) := by
            intro off hoff
            rw [hread off hoff, hrec1]
          have hf0 := hfield 0 (by omega)
          rw [Nat.add_zero] at hf0
          rw [hf0, hfield 1 (by omega), hfield 2 (by omega),
            hfield 3 (by omega), hfield 4 (by omega), hfield 5 (by omega),
            hfield 6 (by omega), hfield 7 (by omega), hfield 8 (by omega),
            hfield 9 (by omega), hfield 10 (by omega), hfield 12 (by omega),
            hfield 13 (by omega), hfield 14 (by omega)]
          rfl
      | some lc2 =>
        cases r with
        | none =>
          have hrec1 : (gpuAux [root] 0).getD i [] =
              gpuNodeFloats (LightcutNode.mk a rep tI (some lc2) none d lc li)
                (((i + 1 + S.length : ℕ) : ℚ)) (-1) := by
            rw [hrec0]
            rfl
          have hkids : nodeKids (LightcutNode.mk a rep tI (some lc2) none d lc li) = [lc2] := rfl
          rw [hkids] at hchild
          have hlcspec := ihl lc2 rfl (S.flatMap nodeKids) (i + 1 + S.length) f
            hchild (by simp [nodeSize] at hfuel ⊢; omega)
          simp only [parseGPUNode, if_neg hbound]
          have h11 := hread 11 (by omega)
          have h15 := hread 15 (by omega)
          rw [hrec1] at h11 h15
          have hv11 : ((gpuNodeFloats (LightcutNode.mk a rep tI (some lc2) none d lc li)
              (((i + 1 + S.length : ℕ) : ℚ)) (-1)).getD 11 0) =
              ((i + 1 + S.length : ℕ) : ℚ) := rfl
          have hv15 : ((gpuNodeFloats (LightcutNode.mk a rep tI (some lc2) none d lc li)
              (((i + 1 + S.length : ℕ) : ℚ)) (-1)).getD 15 0) = -1 := rfl
          rw [hv11] at h11
          rw [hv15] at h15
          rw [h11, h15, if_neg (by exact not_lt.mpr (Nat.cast_nonneg _)),
            if_pos (by norm_num : (-1 : ℚ) < 0)]
          have hfloor : (⌊((i + 1 + S.length : ℕ) : ℚ)⌋).toNat = i + 1 + S.length := by
            rw [Int.floor_natCast]
            exact Int.toNat_natCast _
          rw [hfloor, hlcspec]
          have hfield : ∀ off : ℕ, off < 16 →
              gpuRead ((gpuAux [root] 0).flatten) (16 * i + off) =
                ((gpuNodeFloats (LightcutNode.mk a rep tI (some lc2) none d lc li)
                  (((i + 1 + S.length : ℕ) : ℚ)) (-1)).getD off 0) := by
            intro off hoff
            rw [hread off hoff, hrec1]
          have hf0 := hfield 0 (by omega)
          rw [Nat.add_zero] at hf0
          rw [hf0, hfield 1 (by omega), hfield 2 (by omega),
            hfield 3 (by omega), hfield 4 (by omega), hfield 5 (by omega),
            hfield 6 (by omega), hfield 7 (by omega), hfield 8 (by omega),
            hfield 9 (by omega), hfield 10 (by omega), hfield 12 (by omega),
            hfield 13 (by omega), hfield 14 (by omega)]
          rfl
        | some rc =>
          have hrec1 : (gpuAux [root] 0).getD i [] =
              gpuNodeFloats (LightcutNode.mk a rep tI (some lc2) (some rc) d lc li)
                (((i + 1 + S.length : ℕ) : ℚ)) (((i + 1 + S.length + 1 : ℕ) : ℚ)) := by
            rw [hrec0]
            rfl
          have hkids : nodeKids (LightcutNode.mk a rep tI (some lc2) (some rc) d lc li) =
              [lc2, rc] := rfl
          rw [hkids] at hchild
          have hlcspec := ihl lc2 rfl (rc :: S.flatMap nodeKids) (i + 1 + S.length) f
            hchild (by simp [nodeSize] at hfuel ⊢; omega)
          have hchild2 := recs_drop_step hchild
          have hrcspec := ihr rc rfl (S.flatMap nodeKids ++ nodeKids lc2)
            (i + 1 + S.length + 1) f hchild2 (by simp [nodeSize] at hfuel ⊢; omega)
          simp only [parseGPUNode, if_neg hbound]
          have h11 := hread 11 (by omega)
          have h15 := hread 15 (by omega)
          rw [hrec1] at h11 h15
          have hv11 : ((gpuNodeFloats (LightcutNode.mk a rep tI (some lc2) (some rc) d lc li)
              (((i + 1 + S.length : ℕ) : ℚ)) (((i + 1 + S.length + 1 : ℕ) : ℚ))).getD 11 0) =
              ((i + 1 + S.length : ℕ) : ℚ) := rfl
          have hv15 : ((gpuNodeFloats (LightcutNode.mk a rep tI (some lc2) (some rc) d lc li)
              (((i + 1 + S.length : ℕ) : ℚ)) (((i + 1 + S.length + 1 : ℕ) : ℚ))).getD 15 0) =
              ((i + 1 + S.length + 1 : ℕ) : ℚ) := rfl
          rw [hv11] at h11
          rw [hv15] at h15
          rw [h11, h15, if_neg (by exact not_lt.mpr (Nat.cast_nonneg _)),
            if_neg (by exact not_lt.mpr (Nat.cast_nonneg _))]
          have hfloor1 : (⌊((i + 1 + S.length : ℕ) : ℚ)⌋).toNat = i + 1 + S.length := by
            rw [Int.floor_natCast]
            exact Int.toNat_natCast _
          have hfloor2 : (⌊((i + 1 + S.length + 1 : ℕ) : ℚ)⌋).toNat =
              i + 1 + S.length + 1 := by
            rw [Int.floor_natCast]
            exact Int.toNat_natCast _
          rw [hfloor1, hfloor2, hlcspec, hrcspec]
          have hfield : ∀ off : ℕ, off < 16 →
              gpuRead ((gpuAux [root] 0).flatten) (16 * i + off) =
                ((gpuNodeFloats (LightcutNode.mk a rep tI (some lc2) (some rc) d lc li)
                  (((i + 1 + S.length : ℕ) : ℚ))
                  (((i + 1 + S.length + 1 : ℕ) : ℚ))).getD off 0) := by
            intro off hoff
            rw [hread off hoff, hrec1]
          have hf0 := hfield 0 (by omega)
          rw [Nat.add_zero] at hf0
          rw [hf0, hfield 1 (by omega), hfield 2 (by omega),
            hfield 3 (by omega), hfield 4 (by omega), hfield 5 (by omega),
            hfield 6 (by omega), hfield 7 (by omega), hfield 8 (by omega),
            hfield 9 (by omega), hfield 10 (by omega), hfield 12 (by omega),
            hfield 13 (by omega), hfield 14 (by omega)]
          rfl

/-- C4: GPU flatten/parse round trip. For every tree root, parsing the flat
16-floats-per-node array produced by `flattenTreeForGPU` (with the record count
as recursion fuel, starting at record 0) reconstructs the full recursive view of
the tree: representative position and color, total intensity, light count, aabb
min and max, and the parent-to-child structure, with -1 denoting an absent
child. -/
theorem c4_gpu_roundtrip (root : LightcutNode) :
    parseGPUNode (flattenTreeForGPU (some root)).1 (flattenTreeForGPU (some root)).2 0 =
      some (toGView root) := by
  have h1 : (flattenTreeForGPU (some root)).1 = (gpuAux [root] 0).flatten := rfl
  have h2 : (flattenTreeForGPU (some root)).2 = (gpuAux [root] 0).length := rfl
  rw [h1, h2]
  exact parseGPU_correct root root [] 0 _ (by rw [List.drop_zero])
    (by rw [gpuAux_length]; simp [queueSize])

theorem gpuAux_slots : ∀ (q : List LightcutNode), ∀ (i k : ℕ),
    k < (gpuAux q i).length →
    ((((gpuAux q i).getD k []).getD 11 0 = -1 ∨
      ∃ j : ℕ, ((gpuAux q i).getD k []).getD 11 0 = (j : ℚ) ∧
        i + k < j ∧ j < i + (gpuAux q i).length) ∧
     (((gpuAux q i).getD k []).getD 15 0 = -1 ∨
      ∃ j : ℕ, ((gpuAux q i).getD k []).getD 15 0 = (j : ℚ) ∧
        i + k < j ∧ j < i + (gpuAux q i).length)) := by
  refine queue_inductionOn _ ?_ ?_
  · intro i k hk
    simp [gpuAux] at hk
  · intro n rest ih i k hk
    cases n with
    | mk a rep tI l r d lc li =>
      have hrest := queueSize_ge_length rest
      cases k with
      | zero =>
        rw [gpuAux_cons]
        simp only [List.getD_cons_zero, List.length_cons]
        have htail : (gpuAux (rest ++ nodeKids (LightcutNode.mk a rep tI l r d lc li))
            (i + 1)).length =
            queueSize rest + queueSize (nodeKids (LightcutNode.mk a rep tI l r d lc li)) := by
          rw [gpuAux_length, queueSize_append]
        cases l with
        | none =>
          cases r with
          | none => exact ⟨Or.inl rfl, Or.inl rfl⟩
          | some cr =>
            have hkq : queueSize (nodeKids (LightcutNode.mk a rep tI none (some cr) d lc li)) =
                nodeSize cr := by
              simp [nodeKids, queueSize]
            have hp := nodeSize_pos cr
            exact ⟨Or.inl rfl, Or.inr ⟨i + 1 + rest.length, rfl, by omega, by omega⟩⟩
        | some cl =>
          cases r with
          | none =>
            have hkq : queueSize (nodeKids (LightcutNode.mk a rep tI (some cl) none d lc li)) =
                nodeSize cl := by
              simp [nodeKids, queueSize]
            have hp := nodeSize_pos cl
            exact ⟨Or.inr ⟨i + 1 + rest.length, rfl, by omega, by omega⟩, Or.inl rfl⟩
          | some cr =>
            have hkq : queueSize (nodeKids
                (LightcutNode.mk a rep tI (some cl) (some cr) d lc li)) =
                nodeSize cl + nodeSize cr := by
              simp [nodeKids, queueSize]
            have hp1 := nodeSize_pos cl
            have hp2 := nodeSize_pos cr
            exact ⟨Or.inr ⟨i + 1 + rest.length, rfl, by omega, by omega⟩,
              Or.inr ⟨i + 1 + rest.length + 1, rfl, by omega, by omega⟩⟩
      | succ k2 =>
        rw [gpuAux_cons] at hk
        rw [List.length_cons] at hk
        rw [gpuAux_cons]
        simp only [List.getD_cons_succ, List.length_cons]
        obtain ⟨h11, h15⟩ := ih (i + 1) k2 (by omega)
        constructor
        · rcases h11 with h | ⟨j, hv, hlo, hhi⟩
          · exact Or.inl h
          · exact Or.inr ⟨j, hv, by omega, by omega⟩
        · rcases h15 with h | ⟨j, hv, hlo, hhi⟩
          · exact Or.inl h
          · exact Or.inr ⟨j, hv, by omega, by omega⟩

/-- C8: in the flat GPU array, for every record k, a non-negative left or right
child-index slot holds a natural number strictly greater than k and strictly
less than the record count: children always appear after their parent in the
BFS order, and the buffer is never malformed. -/
theorem c8_child_indices_in_range (root : LightcutNode) :
    childSlotsOKb (flattenTreeForGPU (some root)).1 (flattenTreeForGPU (some root)).2 = true := by
  have h1 : (flattenTreeForGPU (some root)).1 = (gpuAux [root] 0).flatten := rfl
  have h2 : (flattenTreeForGPU (some root)).2 = (gpuAux [root] 0).length := rfl
  rw [h1, h2]
  simp only [childSlotsOKb]
  rw [List.all_eq_true]
  intro k hkmem
  rw [List.mem_range] at hkmem
  rw [decide_eq_true_eq]
  have hlen16 : ∀ x ∈ gpuAux [root] 0, x.length = 16 := gpuAux_len16 [root] 0
  have hr11 : gpuRead ((gpuAux [root] 0).flatten) (16 * k + 11) =
      ((gpuAux [root] 0).getD k []).getD 11 0 :=
    flatten_getD_16 _ hlen16 k 11 hkmem (by omega)
  have hr15 : gpuRead ((gpuAux [root] 0).flatten) (16 * k + 15) =
      ((gpuAux [root] 0).getD k []).getD 15 0 :=
    flatten_getD_16 _ hlen16 k 15 hkmem (by omega)
  obtain ⟨h11, h15⟩ := gpuAux_slots [root] 0 k hkmem
  rw [hr11, hr15]
  constructor
  · rcases h11 with h | ⟨j, hv, hlo, hhi⟩
    · exact Or.inl h
    · refine Or.inr ⟨?_, ?_⟩
      · rw [hv]
        exact_mod_cast Nat.lt_of_lt_of_le (by omega) (le_refl j)
      · rw [hv]
        exact_mod_cast Nat.lt_of_lt_of_le (by omega) (le_refl ((gpuAux [root] 0).length))
  · rcases h15 with h | ⟨j, hv, hlo, hhi⟩
    · exact Or.inl h
    · refine Or.inr ⟨?_, ?_⟩
      · rw [hv]
        exact_mod_cast Nat.lt_of_lt_of_le (by omega) (le_refl j)
      · rw [hv]
        exact_mod_cast Nat.lt_of_lt_of_le (by omega) (le_refl ((gpuAux [root] 0).length))

theorem intensityOK_self {n : LightcutNode} (h : intensityOKb n = true) :
    n.representative.intensity = n.totalIntensity := by
  cases n with
  | mk a rep tI l r d lc li =>
    simp only [representative_mk, totalIntensity_mk]
    cases l <;> cases r <;>
      simp only [intensityOKb, Bool.and_eq_true, Bool.and_true, beq_iff_eq] at h <;>
      first
      | exact h
      | exact h.1
      | exact h.1.1

theorem intensityOK_kids {n : LightcutNode} (h : intensityOKb n = true) :
    ∀ c ∈ nodeKids n, intensityOKb c = true := by
  cases n with
  | mk a rep tI l r d lc li =>
    intro c hc
    cases l with
    | none =>
      cases r with
      | none => simp [nodeKids] at hc
      | some cr =>
        simp only [intensityOKb, Bool.and_eq_true, Bool.and_true, beq_iff_eq] at h
        simp only [nodeKids, List.nil_append, List.mem_singleton] at hc
        rw [hc]
        exact h.2
    | some cl =>
      cases r with
      | none =>
        simp only [intensityOKb, Bool.and_eq_true, Bool.and_true, beq_iff_eq] at h
        simp only [nodeKids, List.append_nil, List.mem_singleton] at hc
        rw [hc]
        exact h.2
      | some cr =>
        simp only [intensityOKb, Bool.and_eq_true, Bool.and_true, beq_iff_eq] at h
        simp only [nodeKids, List.cons_append, List.nil_append, List.mem_cons,
          List.mem_singleton, List.not_mem_nil, or_false] at hc
        rcases hc with hc | hc
        · rw [hc]; exact h.1.2
        · rw [hc]; exact h.2

theorem bfsAux_intensity : ∀ (q : List LightcutNode),
    (∀ n ∈ q, intensityOKb n = true) →
    ∀ x ∈ bfsAux q, x.representative.intensity = x.totalIntensity := by
  refine queue_inductionOn _ ?_ ?_
  · intro _ x hx
    simp [bfsAux] at hx
  · intro n rest ih hq x hx
    rw [bfsAux] at hx
    rcases List.mem_cons.mp hx with h | h
    · rw [h]
      exact intensityOK_self (hq n (List.mem_cons_self n rest))
    · refine ih ?_ x h
      intro m hm
      rcases List.mem_append.mp hm with hm | hm
      · exact hq m (List.mem_cons_of_mem n hm)
      · exact intensityOK_kids (hq n (List.mem_cons_self n rest)) m hm

theorem gpuAux_slot3 : ∀ (q : List LightcutNode), ∀ (i k : ℕ),
    k < (gpuAux q i).length →
    ((gpuAux q i).getD k []).getD 3 0 = ((bfsAux q).getD k defaultNode).totalIntensity := by
  refine queue_inductionOn _ ?_ ?_
  · intro i k hk
    simp [gpuAux] at hk
  · intro n rest ih i k hk
    cases k with
    | zero =>
      rw [gpuAux_cons, bfsAux]
      simp only [List.getD_cons_zero]
      rfl
    | succ k2 =>
      rw [gpuAux_cons] at hk
      rw [List.length_cons] at hk
      rw [gpuAux_cons, bfsAux]
      simp only [List.getD_cons_succ]
      exact ih (i + 1) k2 (by omega)

theorem brute_intensityOK (lights : List LightSource) :
    (buildLightcutTreeBruteForce lights).elim True (fun t => intensityOKb t = true) := by
  match lights with
  | [] => simp [buildLightcutTreeBruteForce]
  | [l] =>
    simp only [buildLightcutTreeBruteForce, Option.elim]
    exact intensityOKb_leaf l 0
  | l0 :: l1 :: rest =>
    have hlen : (lightLeaves (l0 :: l1 :: rest)).length = (l0 :: l1 :: rest).length :=
      lightLeavesFrom_length _ 0
    have hok : ∀ n ∈ lightLeaves (l0 :: l1 :: rest), nodeOKb n = true :=
      lightLeavesFrom_ok _ 0
    have hlooplen := bruteLoopFuel_length (lightLeaves (l0 :: l1 :: rest)).length
      (lightLeaves (l0 :: l1 :: rest)) (by omega) (by rw [hlen]; simp)
    obtain ⟨t, ht⟩ := List.length_eq_one.mp hlooplen
    obtain ⟨hokfin, _⟩ := bruteLoopFuel_spec (lightLeaves (l0 :: l1 :: rest)).length
      (lightLeaves (l0 :: l1 :: rest)) hok
    rw [ht] at hokfin
    have hOK : nodeOKb t = true := hokfin t (by simp)
    have hbuild : buildLightcutTreeBruteForce (l0 :: l1 :: rest) =
        some (assignDepths t 0) := by
      simp only [buildLightcutTreeBruteForce]
      rw [ht]
      rfl
    rw [hbuild]
    simp only [Option.elim]
    rw [assignDepths_intensityOKb]
    simp only [nodeOKb, Bool.and_eq_true] at hOK
    exact hOK.2

theorem median_intensityOK (lights : List LightSource) :
    (buildLightcutTreeKDTreeMedian lights).elim True (fun t => intensityOKb t = true) := by
  match lights with
  | [] => simp [buildLightcutTreeKDTreeMedian]
  | l :: ls =>
    have hspec := kdMedianRec_spec (lightItems (l :: ls))
    cases h : kdMedianRec (lightItems (l :: ls)) with
    | none => simp [buildLightcutTreeKDTreeMedian, h]
    | some t =>
      obtain ⟨hok, _, _⟩ := hspec.2 t h
      have hbuild : buildLightcutTreeKDTreeMedian (l :: ls) = some (assignDepths t 0) := by
        simp only [buildLightcutTreeKDTreeMedian]
        rw [h]
        rfl
      rw [hbuild]
      simp only [Option.elim]
      rw [assignDepths_intensityOKb]
      simp only [nodeOKb, Bool.and_eq_true] at hok
      exact hok.2

theorem spatial_intensityOK (lights : List LightSource) (fuel : ℕ) (t : LightcutNode)
    (h : buildLightcutTreeKDTreeSpatial lights fuel = some (some t)) :
    intensityOKb t = true := by
  match lights with
  | [] => simp [buildLightcutTreeKDTreeSpatial] at h
  | l :: ls =>
    simp only [buildLightcutTreeKDTreeSpatial] at h
    cases hrec : kdSpatialRec fuel (lightItems (l :: ls)) with
    | none => rw [hrec] at h; simp at h
    | some o =>
      rw [hrec] at h
      cases o with
      | none => simp at h
      | some t0 =>
        have ht : t = assignDepths t0 0 := by simpa using h.symm
        subst ht
        have hspec := kdSpatialRec_spec fuel (lightItems (l :: ls)) _ hrec
        obtain ⟨hok, _, _⟩ := hspec.2 t0 rfl
        rw [assignDepths_intensityOKb]
        simp only [nodeOKb, Bool.and_eq_true] at hok
        exact hok.2

/-- C10: every builder produces trees in which each node's representative
intensity equals its total intensity (leaves store the light's own intensity in
both fields, internal nodes the children's sum), and for any such tree the
intensity slot (offset 3) of each 16-float GPU record — written from
totalIntensity — equals the corresponding BFS node's representative
intensity. -/
theorem c10_representative_intensity :
    (∀ lights, (buildLightcutTreeBruteForce lights).elim True
        (fun t => intensityOKb t = true)) ∧
    (∀ lights, (buildLightcutTreeKDTreeMedian lights).elim True
        (fun t => intensityOKb t = true)) ∧
    (∀ lights fuel t, buildLightcutTreeKDTreeSpatial lights fuel = some (some t) →
        intensityOKb t = true) ∧
    (∀ t : LightcutNode, intensityOKb t = true →
      ∀ k : ℕ, k < (flattenTreeForGPU (some t)).2 →
        gpuRead (flattenTreeForGPU (some t)).1 (16 * k + 3) =
          ((flattenTree (some t)).getD k defaultNode).representative.intensity) := by
  refine ⟨brute_intensityOK, median_intensityOK, spatial_intensityOK, ?_⟩
  intro t hint k hk
  have h1 : (flattenTreeForGPU (some t)).1 = (gpuAux [t] 0).flatten := rfl
  have h2 : (flattenTreeForGPU (some t)).2 = (gpuAux [t] 0).length := rfl
  rw [h1]
  rw [h2] at hk
  have hlen16 : ∀ x ∈ gpuAux [t] 0, x.length = 16 := gpuAux_len16 [t] 0
  have hr3 : gpuRead ((gpuAux [t] 0).flatten) (16 * k + 3) =
      ((gpuAux [t] 0).getD k []).getD 3 0 := flatten_getD_16 _ hlen16 k 3 hk (by omega)
  rw [hr3, gpuAux_slot3 [t] 0 k hk]
  have hft : flattenTree (some t) = bfsAux [t] := rfl
  rw [hft]
  have hklen : k < (bfsAux [t]).length := by
    rw [bfsAux_length]
    rw [gpuAux_length] at hk
    exact hk
  have hmem : (bfsAux [t]).getD k defaultNode ∈ bfsAux [t] := by
    rw [List.getD_eq_getElem _ _ hklen]
    exact List.getElem_mem _
  have hrt := bfsAux_intensity [t] (by
    intro m hm
    rcases List.mem_cons.mp hm with hmm | hmm
    · rw [hmm]; exact hint
    · simp at hmm) _ hmem
  exact hrt.symm

/-- Concrete instantiation of the C10 theorem at the single-light leaf
`exLeafW`: its intensity invariant holds, the spatial builder output satisfies
it, and record 0's intensity slot equals the representative intensity. -/
theorem c10_representative_intensity_witness :
    (buildLightcutTreeKDTreeSpatial [exLightW] 1 = some (some exLeafW) ∧
      intensityOKb exLeafW = true) ∧
    (0 < (flattenTreeForGPU (some exLeafW)).2 ∧
      gpuRead (flattenTreeForGPU (some exLeafW)).1 (16 * 0 + 3) =
        ((flattenTree (some exLeafW)).getD 0 defaultNode).representative.intensity) := by
  have hspat : buildLightcutTreeKDTreeSpatial [exLightW] 1 = some (some exLeafW) := by
    with_unfolding_all rfl
  have hint : intensityOKb exLeafW = true := by with_unfolding_all decide
  have hk : 0 < (flattenTreeForGPU (some exLeafW)).2 := by
    have h2 : (flattenTreeForGPU (some exLeafW)).2 = (gpuAux [exLeafW] 0).length := rfl
    rw [h2, gpuAux_length]
    have := nodeSize_pos exLeafW
    simp only [queueSize, List.map_cons, List.map_nil, List.sum_cons, List.sum_nil]
    omega
  exact ⟨⟨hspat, c10_representative_intensity.2.2.1 [exLightW] 1 exLeafW hspat⟩,
    ⟨hk, c10_representative_intensity.2.2.2 exLeafW hint 0 hk⟩⟩
